import Mathlib

/-!
# Verification of the orchestrator-mcp task-tree core

Shallow embedding of `src/lib.ts` (`TaskOrchestrator`) and
`src/evaluator.ts` (`CheckpointManager`), following the TypeScript
source line by line.

Modelling conventions:
* The JS `Map<string, Task>` is an association list with unique keys;
  `Map.get` is first-match lookup, `Map.set` updates in place when the
  key is present and appends otherwise, `Map.size` is the list length.
  All maps built by the embedded operations have unique keys, matching
  the JS `Map` invariant.
* JS `undefined` for an optional string argument or field is `none`;
  JS string falsiness (`""` and `undefined` are falsy) is the `truthy`
  predicate below.
* Task statuses are runtime strings (the TS `TaskStatus` union is a
  compile-time annotation only); the `switch` in `getStatusIcon`
  operates on the string value, with `'⭕'` as the default arm.
* Fallible methods (`throw`) return `Except String`; recursions that
  follow pointer chains through the map (`getPlanState.buildTree`,
  `formatPlan.printTask`) take an explicit fuel and return `none`
  exactly when the JS code would crash on a missing id or loop forever.
* The similarity scorer (`src/utils/similarity.js`,
  `semanticSimilarity`) computes with IEEE floats and is treated by the
  spec as an external interface; the checkpoint operations are
  parametrised over an abstract `score : String → String → ℚ`, while
  `findBestMatches` (sort, truncate, threshold) is embedded concretely.
-/

namespace Orch

/-- JS truthiness for an optional string: `undefined` and `""` are falsy. -/
def truthy : Option String → Bool
  | none => false
  | some s => !s.isEmpty

/-- Interpolation of a possibly-`undefined` JS string into a template
literal: `undefined` prints as `"undefined"`. -/
def jsStr : Option String → String
  | none => "undefined"
  | some s => s

/-- `interface Task` from `src/lib.ts`. -/
structure Task where
  id : String
  description : String
  status : String
  parentId : Option String := none
  notes : Option String := none
  result : Option String := none
  subtasks : List String := []
deriving Repr, DecidableEq

/-- The `Map<string, Task>` held by `TaskOrchestrator`. -/
abbrev TaskMap := List (String × Task)

/-- `Map.get`: first entry with the given key. -/
def mapGet (m : TaskMap) (k : String) : Option Task :=
  (m.find? (fun p => p.1 = k)).map (fun p => p.2)

/-- `Map.set`: replace the value in place when the key is present
(JS `Map` keeps the original insertion position), append otherwise. -/
def mapSet (m : TaskMap) (k : String) (v : Task) : TaskMap :=
  if m.any (fun p => p.1 = k) then
    m.map (fun p => if p.1 = k then (k, v) else p)
  else
    m ++ [(k, v)]

/-- Mutable state of a `TaskOrchestrator`. -/
structure TaskOrchestrator where
  tasks : TaskMap
  rootTaskId : Option String
deriving Repr, DecidableEq

/-- A freshly constructed `TaskOrchestrator`. -/
def emptyOrch : TaskOrchestrator := ⟨[], none⟩

/-- `TaskOrchestrator.createPlan` (`src/lib.ts` 21–32). -/
def createPlan (o : TaskOrchestrator) (goal : String) :
    TaskOrchestrator × String :=
  let rootTask : Task :=
    { id := "1", description := goal, status := "pending", subtasks := [] }
  let _ := o
  (⟨mapSet [] rootTask.id rootTask, some rootTask.id⟩,
    "Plan created with root task ID: 1. Goal: " ++ goal)

/-- `TaskOrchestrator.addTask` (`src/lib.ts` 34–59).  The new task is
keyed first; the parent's `subtasks.push` then mutates the object that
was looked up before the insertion, which is still the in-map object
unless the insertion overwrote that very key. -/
def addTask (o : TaskOrchestrator) (description : String)
    (parentId : Option String := none) (notes : Option String := none) :
    Except String (TaskOrchestrator × String) :=
  match o.rootTaskId with
  | none => .error "No plan exists. Create a plan first."
  | some rootId =>
    let newId := Nat.repr (o.tasks.length + 1)
    let parent? :=
      if truthy parentId then mapGet o.tasks (jsStr parentId)
      else mapGet o.tasks rootId
    match parent? with
    | none => .error ("Parent task " ++ jsStr parentId ++ " not found.")
    | some parent =>
      let newTask : Task :=
        { id := newId, description := description, status := "pending",
          parentId := some parent.id, notes := notes, subtasks := [] }
      let tasks1 := mapSet o.tasks newId newTask
      let tasks2 :=
        if parent.id = newId then tasks1
        else mapSet tasks1 parent.id
          { parent with subtasks := parent.subtasks ++ [newId] }
      .ok (⟨tasks2, o.rootTaskId⟩,
        "Added task " ++ newId ++ ": \"" ++ description ++ "\" to parent "
          ++ parent.id)

/-- The `updates` record accepted by `updateTask`. -/
structure TaskUpdates where
  status : Option String := none
  description : Option String := none
  notes : Option String := none
  result : Option String := none
deriving Repr, DecidableEq

/-- The four guarded field assignments of `updateTask`
(`src/lib.ts` 67–70): each field is applied only when truthy; `notes`
appends with a `"\n"` separator when the task already has truthy
notes. -/
def applyUpdates (task : Task) (updates : TaskUpdates) : Task :=
  let t1 := if truthy updates.status then
      { task with status := jsStr updates.status } else task
  let t2 := if truthy updates.description then
      { t1 with description := jsStr updates.description } else t1
  let t3 := if truthy updates.notes then
      { t2 with notes :=
          if truthy t2.notes then
            some (jsStr t2.notes ++ "\n" ++ jsStr updates.notes)
          else updates.notes }
    else t2
  if truthy updates.result then { t3 with result := updates.result } else t3

/-- `TaskOrchestrator.updateTask` (`src/lib.ts` 61–76). -/
def updateTask (o : TaskOrchestrator) (id : String) (updates : TaskUpdates) :
    Except String (TaskOrchestrator × String) :=
  match mapGet o.tasks id with
  | none => .error ("Task " ++ id ++ " not found.")
  | some task =>
    let t4 := applyUpdates task updates
    .ok (⟨mapSet o.tasks id t4, o.rootTaskId⟩,
      "Updated task " ++ id ++ ". New status: " ++ t4.status)

/-- One node of the plain nested structure produced by
`getPlanState.buildTree`: `{id, description, status, notes, result,
subtasks}`. -/
inductive TaskNode : Type where
  | node : String → String → String → Option String → Option String →
      List TaskNode → TaskNode
deriving Repr

/-- The `id` field of a snapshot node. -/
def TaskNode.nid : TaskNode → String
  | .node i _ _ _ _ _ => i

/-- The `description` field of a snapshot node. -/
def TaskNode.ndesc : TaskNode → String
  | .node _ d _ _ _ _ => d

/-- The `status` field of a snapshot node. -/
def TaskNode.nstatus : TaskNode → String
  | .node _ _ s _ _ _ => s

/-- The `notes` field of a snapshot node. -/
def TaskNode.nnotes : TaskNode → Option String
  | .node _ _ _ n _ _ => n

/-- The `result` field of a snapshot node. -/
def TaskNode.nresult : TaskNode → Option String
  | .node _ _ _ _ r _ => r

/-- The materialized `subtasks` of a snapshot node. -/
def TaskNode.children : TaskNode → List TaskNode
  | .node _ _ _ _ _ c => c

/-- `buildTree` from `getPlanState` (`src/lib.ts` 82–92).  The TS code
does `this.tasks.get(taskId)!` and recurses through `subtasks`;
a missing id crashes it and a cyclic map makes it diverge, both of
which surface as `none` here (fuel bounds the recursion depth). -/
def buildTree (m : TaskMap) : Nat → String → Option TaskNode
  | 0, _ => none
  | fuel + 1, taskId => do
    let task ← mapGet m taskId
    let children ← task.subtasks.mapM (buildTree m fuel)
    pure (.node task.id task.description task.status task.notes task.result
      children)

/-- Result of `getPlanState`: either the `{error: ...}` object or the
materialized tree. -/
inductive PlanStateVal : Type where
  | nullv
  | errorv : String → PlanStateVal
  | treev : TaskNode → PlanStateVal
deriving Repr

/-- `TaskOrchestrator.getPlanState` (`src/lib.ts` 78–95).  It never
produces `nullv`; that constructor exists to model the `!state` check
performed by consumers on arbitrary `any` values. -/
def getPlanState (o : TaskOrchestrator) (fuel : Nat) : Option PlanStateVal :=
  match o.rootTaskId with
  | none => some (.errorv "No plan active")
  | some rootId => (buildTree o.tasks fuel rootId).map .treev

/-- `TaskOrchestrator.getStatusIcon` (`src/lib.ts` 167–175). -/
def getStatusIcon (status : String) : String :=
  if status = "completed" then "✅"
  else if status = "in_progress" then "🔄"
  else if status = "failed" then "❌"
  else if status = "skipped" then "⏭️"
  else "⭕"

/-- `"  ".repeat depth`. -/
def sRepeat (s : String) : Nat → String
  | 0 => ""
  | n + 1 => s ++ sRepeat s n

/-- `printTask` from `formatPlan` (`src/lib.ts` 102–116); the string a
call contributes to `output`, children included. -/
def printTask (m : TaskMap) : Nat → String → Nat → Option String
  | 0, _, _ => none
  | fuel + 1, taskId, depth => do
    let task ← mapGet m taskId
    let indent := sRepeat "  " depth
    let icon := getStatusIcon task.status
    let line := indent ++ icon ++ " [" ++ task.id ++ "] " ++ task.description
      ++ " (" ++ task.status ++ ")\n"
    let resultLine := if truthy task.result then
        indent ++ "    Result: " ++ jsStr task.result ++ "\n" else ""
    let notesLine := if truthy task.notes then
        indent ++ "    Notes: " ++ jsStr task.notes ++ "\n" else ""
    let childStrs ← task.subtasks.mapM (fun subId => printTask m fuel subId (depth + 1))
    pure (line ++ resultLine ++ notesLine ++ String.join childStrs)

/-- `TaskOrchestrator.formatPlan` (`src/lib.ts` 97–120). -/
def formatPlan (o : TaskOrchestrator) (fuel : Nat) : Option String :=
  match o.rootTaskId with
  | none => some "No active plan."
  | some rootId =>
    (printTask o.tasks fuel rootId 0).map
      (fun s => "Current Plan Status:\n" ++ s)

/-- The `!state || state.error` test shared by `restoreState` and
`CheckpointManager.restoreCheckpoint`.  (`state.error` is truthy for
every error object the system builds, since the only one is
`{error: "No plan active"}`.) -/
def stateInvalid : PlanStateVal → Bool
  | .nullv => true
  | .errorv _ => true
  | .treev _ => false

mutual

/-- `restoreTask` from `restoreState` (`src/lib.ts` 132–161): keys the
node under its own id with an empty `subtasks` list, records the root
when there is no parent and otherwise pushes the id onto the parent's
`subtasks` (looked up after the insertion), then replays the children. -/
def restoreTask : TaskNode → Option String → TaskOrchestrator →
    TaskOrchestrator
  | .node i d st nt rs subs, parentId, o =>
    let task : Task :=
      { id := i, description := d, status := st, parentId := parentId,
        notes := nt, result := rs, subtasks := [] }
    let o1 : TaskOrchestrator := ⟨mapSet o.tasks task.id task, o.rootTaskId⟩
    let o2 : TaskOrchestrator :=
      match parentId with
      | none => ⟨o1.tasks, some task.id⟩
      | some pid =>
        match mapGet o1.tasks pid with
        | some parent =>
          ⟨mapSet o1.tasks pid
            { parent with subtasks := parent.subtasks ++ [task.id] },
            o1.rootTaskId⟩
        | none => o1
    restoreTasks subs i o2

/-- The `taskData.subtasks.forEach` loop of `restoreTask`. -/
def restoreTasks : List TaskNode → String → TaskOrchestrator →
    TaskOrchestrator
  | [], _, o => o
  | t :: ts, pid, o => restoreTasks ts pid (restoreTask t (some pid) o)

end

/-- `TaskOrchestrator.restoreState` (`src/lib.ts` 122–165). -/
def restoreState (o : TaskOrchestrator) (state : PlanStateVal) :
    Except String (TaskOrchestrator × String) :=
  if stateInvalid state then .error "Invalid state to restore"
  else
    match state with
    | .treev t =>
      let _ := o
      let o2 := restoreTask t none ⟨[], none⟩
      .ok (o2, "State restored successfully. Plan has "
        ++ Nat.repr o2.tasks.length ++ " task(s).")
    | _ => .error "Invalid state to restore"

/-! ## Renderers written from the specification's wording

These are *not* translated from the source: they transcribe the claim
about `formatPlan` (and its amended form) so the two can be compared. -/

/-- The fixed status-icon mapping as the specification words it, with
the pending glyph as the default arm. -/
def statusIconSpec : String → String
  | "completed" => "✅"
  | "in_progress" => "🔄"
  | "failed" => "❌"
  | "skipped" => "⏭️"
  | _ => "⭕"

/-- Claim-side rendering: the list of display lines for the subtree at
`taskId`, depth-first pre-order, task lines indented two spaces per
depth level, `Result:`/`Notes:` lines at **one** extra indent level. -/
def claimedLines (m : TaskMap) : Nat → String → Nat → Option (List String)
  | 0, _, _ => none
  | fuel + 1, taskId, depth => do
    let task ← mapGet m taskId
    let line := sRepeat "  " depth ++ statusIconSpec task.status ++ " ["
      ++ task.id ++ "] " ++ task.description ++ " (" ++ task.status ++ ")"
    let resLines := if truthy task.result then
        [sRepeat "  " (depth + 1) ++ "Result: " ++ jsStr task.result] else []
    let notesLines := if truthy task.notes then
        [sRepeat "  " (depth + 1) ++ "Notes: " ++ jsStr task.notes] else []
    let rest ← task.subtasks.mapM
      (fun subId => claimedLines m fuel subId (depth + 1))
    pure ([line] ++ resLines ++ notesLines ++ rest.flatten)

/-- `formatPlan` exactly as claim C4 words it: the newline-terminated
claimed lines, with no heading, or `"No active plan."`. -/
def formatPlanClaimed (o : TaskOrchestrator) (fuel : Nat) : Option String :=
  match o.rootTaskId with
  | none => some "No active plan."
  | some rootId =>
    (claimedLines o.tasks fuel rootId 0).map
      (fun ls => String.join (ls.map (fun l => l ++ "\n")))

/-- Amended rendering: as `claimedLines`, except that the
`Result:`/`Notes:` lines are indented by the task's indent plus four
spaces (two extra levels). -/
def amendedLines (m : TaskMap) : Nat → String → Nat → Option (List String)
  | 0, _, _ => none
  | fuel + 1, taskId, depth => do
    let task ← mapGet m taskId
    let line := sRepeat "  " depth ++ statusIconSpec task.status ++ " ["
      ++ task.id ++ "] " ++ task.description ++ " (" ++ task.status ++ ")"
    let resLines := if truthy task.result then
        [sRepeat "  " depth ++ "    " ++ "Result: " ++ jsStr task.result]
      else []
    let notesLines := if truthy task.notes then
        [sRepeat "  " depth ++ "    " ++ "Notes: " ++ jsStr task.notes]
      else []
    let rest ← task.subtasks.mapM
      (fun subId => amendedLines m fuel subId (depth + 1))
    pure ([line] ++ resLines ++ notesLines ++ rest.flatten)

/-- `formatPlan` as amended by the counterexample: the
newline-terminated amended lines, preceded by the heading line
`Current Plan Status:`, or `"No active plan."`. -/
def formatPlanAmended (o : TaskOrchestrator) (fuel : Nat) : Option String :=
  match o.rootTaskId with
  | none => some "No active plan."
  | some rootId =>
    (amendedLines o.tasks fuel rootId 0).map
      (fun ls => "Current Plan Status:\n"
        ++ String.join (ls.map (fun l => l ++ "\n")))

/-! ## Checkpoint manager (`src/evaluator.ts`, `CheckpointManager`) -/

/-- `interface Checkpoint` from the checkpoint manager. -/
structure Checkpoint where
  id : String
  name : String
  description : Option String
  state : PlanStateVal
  timestamp : Nat
deriving Repr

/-- A `CheckpointManager` together with the `TaskOrchestrator` it holds
a reference to. -/
structure CheckpointSystem where
  orchestrator : TaskOrchestrator
  checkpoints : List Checkpoint
  nextId : Nat
deriving Repr

/-- A `CheckpointManager` wrapped around a fresh orchestrator. -/
def emptySystem : CheckpointSystem := ⟨emptyOrch, [], 1⟩

/-- `CheckpointManager.createCheckpoint` (`src/evaluator.ts`):
`JSON.parse(JSON.stringify(state))` is a deep value copy, which the
embedding's value semantics gives for free; `Date.now()` is passed in
as `now`.  `none` models the crash of `getPlanState` on a corrupted
map, in which case no checkpoint is recorded. -/
def createCheckpoint (sys : CheckpointSystem) (name : String)
    (description : Option String) (now : Nat) (fuel : Nat) :
    Option (CheckpointSystem × String) :=
  let cpId := "cp_" ++ Nat.repr sys.nextId
  (getPlanState sys.orchestrator fuel).map (fun st =>
    let cp : Checkpoint :=
      { id := cpId, name := name, description := description, state := st,
        timestamp := now }
    let cps := sys.checkpoints ++ [cp]
    ({ sys with checkpoints := cps, nextId := sys.nextId + 1 }, cpId))

/-- `getText` from `restoreCheckpoint`:
`cp.description ? `${cp.name} ${cp.description}` : cp.name`. -/
def cpText (cp : Checkpoint) : String :=
  if truthy cp.description then cp.name ++ " " ++ jsStr cp.description
  else cp.name

/-- `findBestMatches` (`src/utils/similarity.js` 46–55), parametrised
over the scorer: score each item, sort descending (the JS comparator
`b.score - a.score` under V8's stable sort), truncate to `limit`, and
keep only scores above `0.1`. -/
def findBestMatches {α : Type} (score : String → String → ℚ)
    (query : String) (items : List α) (getText : α → String)
    (limit : Nat) : List (α × ℚ) :=
  ((((items.map (fun item => (item, score query (getText item)))).mergeSort
      (fun a b => b.2 ≤ a.2)).take limit).filter
    (fun r => (1 : ℚ) / 10 < r.2))

/-- The `{success, message}` result of `restoreCheckpoint`. -/
structure RestoreResult where
  success : Bool
  message : String
deriving Repr, DecidableEq

/-- The second half of `CheckpointManager.restoreCheckpoint`: the code
run once a checkpoint has been resolved (state validity check, the
`try`-wrapped `restoreState` call, and conversion of a thrown error
into a `{success:false}` result). -/
def applyCheckpoint (sys : CheckpointSystem) (cp : Checkpoint) :
    CheckpointSystem × RestoreResult :=
  if stateInvalid cp.state then
    (sys, ⟨false, "Checkpoint \"" ++ cp.name ++ "\" has invalid state."⟩)
  else
    match restoreState sys.orchestrator cp.state with
    | .ok (o2, _) =>
      ({ sys with orchestrator := o2 },
        ⟨true, "Checkpoint \"" ++ cp.name ++ "\" restored successfully."⟩)
    | .error e =>
      (sys, ⟨false, "Error restoring checkpoint: " ++ e⟩)

/-- `CheckpointManager.restoreCheckpoint` (`src/evaluator.ts` 280–328). -/
def restoreCheckpoint (score : String → String → ℚ)
    (sys : CheckpointSystem) (checkpointId description : Option String) :
    CheckpointSystem × RestoreResult :=
  let checkpoint? : Option Checkpoint :=
    if truthy checkpointId then
      sys.checkpoints.find? (fun cp => cp.id = jsStr checkpointId)
    else if truthy description then
      match findBestMatches score (jsStr description) sys.checkpoints cpText 1
        with
      | m :: _ => if (3 : ℚ) / 10 < m.2 then some m.1 else none
      | [] => none
    else none
  match checkpoint? with
  | none =>
    (sys, ⟨false,
      if truthy checkpointId then
        "Checkpoint " ++ jsStr checkpointId ++ " not found."
      else "No checkpoint found matching: " ++ jsStr description⟩)
  | some cp => applyCheckpoint sys cp

/-- The live-plan mutations named by the isolation law: `addTask`,
`updateTask`, `createPlan`, `restoreState`, each dispatched against the
shared orchestrator (a throwing call leaves it unchanged). -/
inductive SysOp : Type where
  | createPlanOp : String → SysOp
  | addTaskOp : String → Option String → Option String → SysOp
  | updateTaskOp : String → TaskUpdates → SysOp
  | restoreStateOp : PlanStateVal → SysOp

/-- Run one live-plan mutation against the orchestrator that the
checkpoint manager wraps. -/
def applySysOp (sys : CheckpointSystem) : SysOp → CheckpointSystem
  | .createPlanOp g => { sys with orchestrator := (createPlan sys.orchestrator g).1 }
  | .addTaskOp d p n =>
    match addTask sys.orchestrator d p n with
    | .ok (o, _) => { sys with orchestrator := o }
    | .error _ => sys
  | .updateTaskOp i u =>
    match updateTask sys.orchestrator i u with
    | .ok (o, _) => { sys with orchestrator := o }
    | .error _ => sys
  | .restoreStateOp st =>
    match restoreState sys.orchestrator st with
    | .ok (o, _) => { sys with orchestrator := o }
    | .error _ => sys

/-! ## Occurrence, coherence, and depth of snapshot trees

Vocabulary for the round-trip law: a node occurs in a snapshot if it is
the snapshot or sits below it; a snapshot is coherent when any two
occurring nodes with the same id are identical (which `getPlanState`
guarantees, since equal ids are expanded from the same map entry). -/

/-- `Occurs u t`: `u` is a node of the snapshot tree `t`. -/
inductive Occurs : TaskNode → TaskNode → Prop where
  | refl (t : TaskNode) : Occurs t t
  | child {u c t : TaskNode} : c ∈ t.children → Occurs u c → Occurs u t

/-- Any two nodes of `t` with the same id are identical. -/
def Coherent (t : TaskNode) : Prop :=
  ∀ u1 u2, Occurs u1 t → Occurs u2 t → u1.nid = u2.nid → u1 = u2

/-- `u` occurs in one of the trees of `cs`. -/
def OccursL (u : TaskNode) (cs : List TaskNode) : Prop :=
  ∃ c ∈ cs, Occurs u c

/-- Any two nodes occurring in the forest `cs` with the same id are
identical. -/
def CoherentL (cs : List TaskNode) : Prop :=
  ∀ u1 u2, OccursL u1 cs → OccursL u2 cs → u1.nid = u2.nid → u1 = u2

/-- The map entry that replaying `restoreTask` over a snapshot node `u`
leaves behind once all of `u`'s children have been replayed: the node's
own fields, parent pointer `pp`, and its children's ids in order. -/
def mkEntry (u : TaskNode) (pp : Option String) : Task :=
  { id := u.nid, description := u.ndesc, status := u.nstatus,
    parentId := pp, notes := u.nnotes, result := u.nresult,
    subtasks := u.children.map TaskNode.nid }

mutual

/-- Height of a snapshot tree: the fuel `buildTree` needs. -/
def depthT : TaskNode → Nat
  | .node _ _ _ _ _ subs => depthL subs + 1

/-- Height of a forest. -/
def depthL : List TaskNode → Nat
  | [] => 0
  | t :: ts => max (depthT t) (depthL ts)

end

/-! ## Decimal rendering of ids

`(this.tasks.size + 1).toString()` is `Nat.repr`; the lemmas about it
need a structurally recursive reformulation of core's fuelled
`Nat.toDigitsCore` together with a digit-value function. -/

/-- The digits of `n` in base 10, most significant first (the
fuel-free counterpart of `Nat.toDigits 10`). -/
def tdc (n : Nat) : List Char :=
  if h : n / 10 = 0 then [Nat.digitChar (n % 10)]
  else tdc (n / 10) ++ [Nat.digitChar (n % 10)]
decreasing_by
  exact Nat.div_lt_self
    (Nat.pos_of_ne_zero (fun h0 => h (by rw [h0]))) (by decide)

/-- Numeric value of a decimal digit character. -/
def dval (c : Char) : Nat := c.toNat - 48

/-- The fields of one `addTask` call. -/
structure AddReq where
  description : String
  parentId : Option String := none
  notes : Option String := none

/-- Run a sequence of `addTask` calls, stopping at the first failure. -/
def runAdds (o : TaskOrchestrator) : List AddReq →
    Except String TaskOrchestrator
  | [] => .ok o
  | r :: rs =>
    match addTask o r.description r.parentId r.notes with
    | .ok (o', _) => runAdds o' rs
    | .error e => .error e

/-- The key list of a task map, in insertion order. -/
def keys (m : TaskMap) : List String := m.map (fun p => p.1)

/-- The ids `"1", …, Nat.repr n` that a plan holds after `n - 1`
successful `addTask` calls. -/
def idList (n : Nat) : List String :=
  (List.range n).map (fun i => Nat.repr (i + 1))

/-- Invariant tying a store to the `addTask` calls (`done`) performed
since `createPlan`: root is `"1"`, the keys are exactly
`"1", …, repr (done.length + 1)` in order, every entry's `id` equals
its key, all `subtasks`/`parentId` references hit existing keys, and
the `i`-th performed call produced the entry at position `i + 1` with
id `repr (i + 2)` and that call's description. -/
def C2Inv (done : List AddReq) (o : TaskOrchestrator) : Prop :=
  o.rootTaskId = some "1" ∧
  keys o.tasks = idList (done.length + 1) ∧
  (∀ p ∈ o.tasks, p.2.id = p.1) ∧
  (∀ p ∈ o.tasks, (∀ c ∈ p.2.subtasks, c ∈ keys o.tasks) ∧
    (∀ q, p.2.parentId = some q → q ∈ keys o.tasks)) ∧
  (∀ i, (hi : i < done.length) → ∃ tk,
    o.tasks[i + 1]? = some (Nat.repr (i + 2), tk) ∧
    tk.description = (done.get ⟨i, hi⟩).description)

/-! ## Concrete values used by witnesses and counterexamples -/

/-- The snapshot of claim C9: root `"1"` with a single child `"3"`. -/
def c9snap : TaskNode :=
  .node "1" "g" "pending" none none [.node "3" "c" "pending" none none []]

/-- A one-task store (goal `"g"`, root `"1"`), as built by `createPlan`. -/
def w1store : TaskOrchestrator :=
  ⟨[("1",
     { id := "1", description := "g", status := "pending",
       subtasks := [] })], some "1"⟩

/-- `w1store` after `updateTask "1" {notes: "a"}`. -/
def w1storeNotesA : TaskOrchestrator :=
  ⟨[("1",
     { id := "1", description := "g", status := "pending",
       notes := some "a", subtasks := [] })], some "1"⟩

/-- `w1storeNotesA` after `updateTask "1" {notes: "b"}`. -/
def w1storeNotesAB : TaskOrchestrator :=
  ⟨[("1",
     { id := "1", description := "g", status := "pending",
       notes := some "a\nb", subtasks := [] })], some "1"⟩

/-- A one-task store whose root carries a result, used to exhibit the
rendering of `Result:` lines. -/
def c4store : TaskOrchestrator :=
  ⟨[("1",
     { id := "1", description := "g", status := "pending",
       result := some "r", subtasks := [] })], some "1"⟩

/-- A checkpoint whose stored state is the error object produced by
snapshotting before any plan exists. -/
def cpErr : Checkpoint :=
  { id := "cp_1", name := "one", description := none,
    state := .errorv "No plan active", timestamp := 0 }

/-- A checkpoint holding a one-node tree snapshot. -/
def cpTree : Checkpoint :=
  { id := "cp_2", name := "two", description := some "plan of g",
    state := .treev (.node "1" "g" "pending" none none []),
    timestamp := 1 }

/-- A checkpoint system holding `cpErr` and `cpTree` over `w1store`. -/
def w8sys : CheckpointSystem := ⟨w1store, [cpErr, cpTree], 3⟩

/-- A scorer giving full marks to `cpTree`'s text and zero otherwise. -/
def w7score : String → String → ℚ :=
  fun _ t => if t = "two plan of g" then 1 else 0

/-- A two-task store (root `"1"` with child `"2"`), as built by
`createPlan "g"` then `addTask "a"`. -/
def c1store : TaskOrchestrator :=
  ⟨[("1",
     { id := "1", description := "g", status := "pending",
       subtasks := ["2"] }),
    ("2",
     { id := "2", description := "a", status := "pending",
       parentId := some "1", subtasks := [] })], some "1"⟩

/-- The snapshot `getPlanState` exports from `c1store`. -/
def c1snap : TaskNode :=
  .node "1" "g" "pending" none none [.node "2" "a" "pending" none none []]

/-- Two `addTask` requests: `"a"` under the root, `"b"` under `"2"`. -/
def c2reqs : List AddReq := [⟨"a", none, none⟩, ⟨"b", some "2", none⟩]

/-- The store `createPlan "g"` followed by `c2reqs` produces. -/
def c2result : TaskOrchestrator :=
  ⟨[("1",
     { id := "1", description := "g", status := "pending",
       subtasks := ["2"] }),
    ("2",
     { id := "2", description := "a", status := "pending",
       parentId := some "1", subtasks := ["3"] }),
    ("3",
     { id := "3", description := "b", status := "pending",
       parentId := some "2", subtasks := [] })], some "1"⟩

/-- A checkpoint system whose only checkpoint scores `0` under
`w7score`. -/
def w7sysLow : CheckpointSystem := ⟨w1store, [cpErr], 2⟩

/-- A checkpoint system with one task and no checkpoints yet. -/
def c3sys : CheckpointSystem := ⟨w1store, [], 1⟩

/-- `c3sys` after `createCheckpoint "first"` at time 5. -/
def c3sys' : CheckpointSystem :=
  ⟨w1store,
    [{ id := "cp_1", name := "first", description := none,
       state := .treev (.node "1" "g" "pending" none none []),
       timestamp := 5 }], 2⟩

/-! ## Association-list map lemmas -/

theorem mapGet_nil (k : String) : mapGet [] k = none := rfl

theorem mapGet_cons (p : String × Task) (ps : TaskMap) (k : String) :
    mapGet (p :: ps) k = if p.1 = k then some p.2 else mapGet ps k := by
  by_cases h : p.1 = k <;> simp [mapGet, List.find?_cons, h]

theorem mapGet_mapSet_self (m : TaskMap) (k : String) (v : Task) :
    mapGet (mapSet m k v) k = some v := by
  induction m with
  | nil => simp [mapSet, mapGet]
  | cons p ps ih =>
    by_cases hp : p.1 = k
    · simp [mapSet, List.any_cons, hp, mapGet_cons]
    · by_cases ha : ps.any (fun q => q.1 = k)
      · have : mapSet (p :: ps) k v = p :: mapSet ps k v := by
          simp [mapSet, List.any_cons, hp, ha]
        rw [this, mapGet_cons, if_neg hp, ih]
      · have : mapSet (p :: ps) k v = p :: mapSet ps k v := by
          simp [mapSet, List.any_cons, hp, ha]
        rw [this, mapGet_cons, if_neg hp, ih]

theorem mapGet_mapAll (ps : TaskMap) (k : String) (v : Task) (x : String)
    (h : x ≠ k) :
    mapGet (ps.map (fun p => if p.1 = k then (k, v) else p)) x =
      mapGet ps x := by
  induction ps with
  | nil => rfl
  | cons q qs ih =>
    by_cases hq : q.1 = k
    · have hkx : k ≠ x := fun hh => h hh.symm
      have hqx : q.1 ≠ x := by rw [hq]; exact hkx
      simp only [List.map_cons, if_pos hq, mapGet_cons, if_neg hkx,
        if_neg hqx, ih]
    · simp only [List.map_cons, if_neg hq, mapGet_cons, ih]

theorem mapGet_append_ne (m : TaskMap) (k : String) (v : Task) (x : String)
    (h : x ≠ k) : mapGet (m ++ [(k, v)]) x = mapGet m x := by
  induction m with
  | nil =>
    have hkx : k ≠ x := fun hh => h hh.symm
    simp only [List.nil_append, mapGet_cons, if_neg hkx, mapGet_nil]
  | cons q qs ih =>
    simp only [List.cons_append, mapGet_cons, ih]

theorem mapGet_mapSet_ne (m : TaskMap) (k : String) (v : Task) (x : String)
    (h : x ≠ k) : mapGet (mapSet m k v) x = mapGet m x := by
  unfold mapSet
  by_cases ha : m.any (fun p => p.1 = k)
  · rw [if_pos ha, mapGet_mapAll m k v x h]
  · rw [if_neg ha, mapGet_append_ne m k v x h]

theorem mapGet_mem (m : TaskMap) (k : String) (t : Task)
    (h : mapGet m k = some t) : (k, t) ∈ m := by
  unfold mapGet at h
  cases hf : m.find? (fun p => p.1 = k) with
  | none => rw [hf] at h; simp at h
  | some p =>
    rw [hf] at h
    obtain ⟨a, b⟩ := p
    have hp : a = k := by simpa using List.find?_some hf
    have hb : b = t := by simpa using h
    have hm := List.mem_of_find?_eq_some hf
    rw [hp, hb] at hm
    exact hm

/-! ## Frame lemmas for the checkpoint list -/

theorem applySysOp_checkpoints (sys : CheckpointSystem) (op : SysOp) :
    (applySysOp sys op).checkpoints = sys.checkpoints := by
  cases op with
  | createPlanOp g => rfl
  | addTaskOp d p n =>
    cases h : addTask sys.orchestrator d p n with
    | ok r => cases r with | mk o m => simp [applySysOp, h]
    | error e => simp [applySysOp, h]
  | updateTaskOp i u =>
    cases h : updateTask sys.orchestrator i u with
    | ok r => cases r with | mk o m => simp [applySysOp, h]
    | error e => simp [applySysOp, h]
  | restoreStateOp st =>
    cases h : restoreState sys.orchestrator st with
    | ok r => cases r with | mk o m => simp [applySysOp, h]
    | error e => simp [applySysOp, h]

theorem foldl_applySysOp_checkpoints (ops : List SysOp)
    (sys : CheckpointSystem) :
    (ops.foldl applySysOp sys).checkpoints = sys.checkpoints := by
  induction ops generalizing sys with
  | nil => rfl
  | cons op rest ih =>
    rw [List.foldl_cons, ih, applySysOp_checkpoints]

/-! ## Claim theorems -/

/-- Claim C9: restoring the snapshot whose root `"1"` has a single child
`"3"` and then adding one task makes `addTask` allocate the id `"3"`
(task count 2 plus 1, stringified), replacing the existing task `"3"` in
the map and appending a second occurrence of `"3"` to the root's
`subtasks` list — id uniqueness and tree shape are not preserved after
restoring a snapshot whose ids are not exactly `1..n`. -/
theorem claim_C9 :
    ∃ o1 m1 o2 m2,
      restoreState emptyOrch (.treev c9snap) = .ok (o1, m1) ∧
      addTask o1 "newbie" none none = .ok (o2, m2) ∧
      o1.tasks.length = 2 ∧
      mapGet o1.tasks "3" =
        some { id := "3", description := "c", status := "pending",
               parentId := some "1", subtasks := [] } ∧
      mapGet o2.tasks "3" =
        some { id := "3", description := "newbie", status := "pending",
               parentId := some "1", subtasks := [] } ∧
      (∃ root, mapGet o2.tasks "1" = some root ∧
        root.subtasks = ["3", "3"] ∧ ¬root.subtasks.Nodup) ∧
      o2.tasks.length = 2 := by
  refine ⟨_, _, _, _, rfl, rfl, rfl, rfl, rfl, ⟨_, rfl, rfl, by decide⟩, rfl⟩

/-- Claim C10: `restoreCheckpoint` with neither a `checkpointId` nor a
`description` resolves no checkpoint and returns `{success:false}` with
the description-style not-found message (interpolating the absent
description as `"undefined"`), leaving the plan state and the
checkpoint list unchanged. -/
theorem claim_C10 (score : String → String → ℚ) (sys : CheckpointSystem) :
    restoreCheckpoint score sys none none =
      (sys, ⟨false, "No checkpoint found matching: undefined"⟩) := rfl

/-- Claim C3: a checkpoint stores the value `getPlanState()` returned at
creation time, and any later sequence of live-plan mutations
(`addTask`, `updateTask`, `createPlan`, `restoreState`) leaves the
stored checkpoint list — hence every stored state — unchanged. -/
theorem claim_C3 (sys : CheckpointSystem) (name : String)
    (desc : Option String) (now fuel : Nat) (sys' : CheckpointSystem)
    (cpId : String)
    (h : createCheckpoint sys name desc now fuel = some (sys', cpId)) :
    ∃ st, getPlanState sys.orchestrator fuel = some st ∧
      sys'.checkpoints = sys.checkpoints ++
        [{ id := cpId, name := name, description := desc, state := st,
           timestamp := now }] ∧
      ∀ ops : List SysOp,
        (ops.foldl applySysOp sys').checkpoints = sys'.checkpoints := by
  unfold createCheckpoint at h
  cases hg : getPlanState sys.orchestrator fuel with
  | none => rw [hg] at h; simp at h
  | some st =>
    rw [hg] at h
    simp only [Option.map_some, Option.some_inj] at h
    cases h
    exact ⟨st, rfl, rfl, fun ops => foldl_applySysOp_checkpoints ops _⟩

/-- Everything `claim_C3` asserts, at a concrete checkpoint creation. -/
theorem claim_C3_witness :
    ∃ st, getPlanState c3sys.orchestrator 2 = some st ∧
      c3sys'.checkpoints = c3sys.checkpoints ++
        [{ id := "cp_1", name := "first", description := none, state := st,
           timestamp := 5 }] ∧
      ∀ ops : List SysOp,
        (ops.foldl applySysOp c3sys').checkpoints = c3sys'.checkpoints :=
  claim_C3 c3sys "first" none 5 2 c3sys' "cp_1" rfl

/-! ## Field behaviour of `applyUpdates` -/

theorem applyUpdates_fields (task : Task) (u : TaskUpdates) :
    (applyUpdates task u).id = task.id ∧
    (applyUpdates task u).parentId = task.parentId ∧
    (applyUpdates task u).subtasks = task.subtasks ∧
    (truthy u.status = false →
      (applyUpdates task u).status = task.status) ∧
    (truthy u.description = false →
      (applyUpdates task u).description = task.description) ∧
    (truthy u.notes = false → (applyUpdates task u).notes = task.notes) ∧
    (truthy u.result = false → (applyUpdates task u).result = task.result) := by
  unfold applyUpdates
  by_cases h1 : truthy u.status <;> by_cases h2 : truthy u.description <;>
    by_cases h3 : truthy u.notes <;> by_cases h4 : truthy u.result <;>
    simp [h1, h2, h3, h4]

theorem applyUpdates_notes (task : Task) (u : TaskUpdates)
    (h : truthy u.notes) :
    (applyUpdates task u).notes =
      if truthy task.notes then
        some (jsStr task.notes ++ "\n" ++ jsStr u.notes)
      else u.notes := by
  unfold applyUpdates
  by_cases h1 : truthy u.status <;> by_cases h2 : truthy u.description <;>
    by_cases h4 : truthy u.result <;> simp [h1, h2, h, h4]

/-- Claim C5: for an existing task, `updateTask` leaves every field
whose update value is absent or falsy (in particular, the empty string)
unchanged, and never touches `id`, `parentId`, `subtasks`, the root
pointer, or any other task. -/
theorem claim_C5 (o : TaskOrchestrator) (id : String) (u : TaskUpdates)
    (o' : TaskOrchestrator) (msg : String)
    (h : updateTask o id u = .ok (o', msg)) :
    ∃ tk tk', mapGet o.tasks id = some tk ∧ mapGet o'.tasks id = some tk' ∧
      o'.rootTaskId = o.rootTaskId ∧
      (∀ x, x ≠ id → mapGet o'.tasks x = mapGet o.tasks x) ∧
      tk'.id = tk.id ∧ tk'.parentId = tk.parentId ∧
      tk'.subtasks = tk.subtasks ∧
      (truthy u.status = false → tk'.status = tk.status) ∧
      (truthy u.description = false → tk'.description = tk.description) ∧
      (truthy u.notes = false → tk'.notes = tk.notes) ∧
      (truthy u.result = false → tk'.result = tk.result) := by
  unfold updateTask at h
  cases hm : mapGet o.tasks id with
  | none => rw [hm] at h; simp at h
  | some task =>
    rw [hm] at h
    simp only [Except.ok.injEq, Prod.mk.injEq] at h
    obtain ⟨ho, _⟩ := h
    obtain ⟨hid, hpar, hsub, hst, hdesc, hnotes, hres⟩ :=
      applyUpdates_fields task u
    refine ⟨task, applyUpdates task u, rfl, ?_, ?_, ?_, hid, hpar, hsub,
      hst, hdesc, hnotes, hres⟩
    · rw [← ho]; exact mapGet_mapSet_self o.tasks id _
    · rw [← ho]
    · intro x hx; rw [← ho]; exact mapGet_mapSet_ne o.tasks id _ x hx

/-- The guarantees of `claim_C5` at a concrete all-falsy update (empty
strings for `status` and `description`, absent `notes` and `result`). -/
theorem claim_C5_witness :
    ∃ tk tk', mapGet w1store.tasks "1" = some tk ∧
      mapGet w1store.tasks "1" = some tk' ∧
      w1store.rootTaskId = w1store.rootTaskId ∧
      (∀ x, x ≠ "1" → mapGet w1store.tasks x = mapGet w1store.tasks x) ∧
      tk'.id = tk.id ∧ tk'.parentId = tk.parentId ∧
      tk'.subtasks = tk.subtasks ∧
      (truthy (some "") = false → tk'.status = tk.status) ∧
      (truthy (some "") = false → tk'.description = tk.description) ∧
      (truthy none = false → tk'.notes = tk.notes) ∧
      (truthy none = false → tk'.result = tk.result) :=
  claim_C5 w1store "1" ⟨some "", some "", none, none⟩ w1store
    "Updated task 1. New status: pending" rfl

/-- Claim C6: `updateTask` with a truthy `notes` value appends: the new
notes become the old notes plus a newline plus the new text when the
task already had truthy notes, and the new text alone otherwise. -/
theorem claim_C6 (o : TaskOrchestrator) (id : String) (u : TaskUpdates)
    (o' : TaskOrchestrator) (msg : String) (v : String)
    (h : updateTask o id u = .ok (o', msg)) (hv : u.notes = some v)
    (hne : v.isEmpty = false) :
    ∃ tk tk', mapGet o.tasks id = some tk ∧ mapGet o'.tasks id = some tk' ∧
      tk'.notes = some (if truthy tk.notes then
        jsStr tk.notes ++ "\n" ++ v else v) := by
  have htr : truthy u.notes := by rw [hv]; simp [truthy, hne]
  unfold updateTask at h
  cases hm : mapGet o.tasks id with
  | none => rw [hm] at h; simp at h
  | some task =>
    rw [hm] at h
    simp only [Except.ok.injEq, Prod.mk.injEq] at h
    obtain ⟨ho, _⟩ := h
    refine ⟨task, applyUpdates task u, rfl, ?_, ?_⟩
    · rw [← ho]; exact mapGet_mapSet_self o.tasks id _
    · rw [applyUpdates_notes task u htr, hv]
      by_cases hn : truthy task.notes <;> simp [hn, jsStr]

/-- The append law of `claim_C6` at the concrete second call of the
scenario `updateTask` with notes `"a"` then `"b"`: the notes of the
stored task become `"a\nb"`. -/
theorem claim_C6_witness :
    (∃ tk tk', mapGet w1storeNotesA.tasks "1" = some tk ∧
      mapGet w1storeNotesAB.tasks "1" = some tk' ∧
      tk'.notes = some (if truthy tk.notes then
        jsStr tk.notes ++ "\n" ++ "b" else "b")) ∧
    updateTask w1store "1" ⟨none, none, some "a", none⟩ =
      .ok (w1storeNotesA, "Updated task 1. New status: pending") ∧
    (mapGet w1storeNotesAB.tasks "1").map Task.notes =
      some (some "a\nb") :=
  ⟨claim_C6 w1storeNotesA "1" ⟨none, none, some "b", none⟩ w1storeNotesAB
    "Updated task 1. New status: pending" "b" rfl rfl rfl, rfl, rfl⟩

/-! ## `restoreCheckpoint` behaviour -/

theorem restoreCheckpoint_id_found (score : String → String → ℚ)
    (sys : CheckpointSystem) (cid : String) (d : Option String)
    (cp : Checkpoint) (hne : cid.isEmpty = false)
    (hfind : sys.checkpoints.find? (fun c => c.id = cid) = some cp) :
    restoreCheckpoint score sys (some cid) d = applyCheckpoint sys cp := by
  have h1 : truthy (some cid) = true := by simp [truthy, hne]
  unfold restoreCheckpoint
  simp only [h1, jsStr]
  simp [hfind]

theorem restoreCheckpoint_id_missing (score : String → String → ℚ)
    (sys : CheckpointSystem) (cid : String) (d : Option String)
    (hne : cid.isEmpty = false)
    (hfind : sys.checkpoints.find? (fun c => c.id = cid) = none) :
    restoreCheckpoint score sys (some cid) d =
      (sys, ⟨false, "Checkpoint " ++ cid ++ " not found."⟩) := by
  have h1 : truthy (some cid) = true := by simp [truthy, hne]
  unfold restoreCheckpoint
  simp only [h1, jsStr]
  simp [hfind]

theorem restoreCheckpoint_desc_nil (score : String → String → ℚ)
    (sys : CheckpointSystem) (d : String) (hne : d.isEmpty = false)
    (hfb : findBestMatches score d sys.checkpoints cpText 1 = []) :
    restoreCheckpoint score sys none (some d) =
      (sys, ⟨false, "No checkpoint found matching: " ++ d⟩) := by
  have h1 : truthy (some d) = true := by simp [truthy, hne]
  unfold restoreCheckpoint
  simp only [h1, jsStr]
  simp [truthy, hfb]

theorem restoreCheckpoint_desc_low (score : String → String → ℚ)
    (sys : CheckpointSystem) (d : String) (m : Checkpoint × ℚ)
    (rest : List (Checkpoint × ℚ)) (hne : d.isEmpty = false)
    (hfb : findBestMatches score d sys.checkpoints cpText 1 = m :: rest)
    (hm : ¬((3 : ℚ) / 10 < m.2)) :
    restoreCheckpoint score sys none (some d) =
      (sys, ⟨false, "No checkpoint found matching: " ++ d⟩) := by
  have h1 : truthy (some d) = true := by simp [truthy, hne]
  unfold restoreCheckpoint
  simp only [h1, jsStr]
  simp [truthy, hfb, hm]

theorem restoreCheckpoint_desc_hit (score : String → String → ℚ)
    (sys : CheckpointSystem) (d : String) (m : Checkpoint × ℚ)
    (rest : List (Checkpoint × ℚ)) (hne : d.isEmpty = false)
    (hfb : findBestMatches score d sys.checkpoints cpText 1 = m :: rest)
    (hm : (3 : ℚ) / 10 < m.2) :
    restoreCheckpoint score sys none (some d) =
      applyCheckpoint sys m.1 := by
  have h1 : truthy (some d) = true := by simp [truthy, hne]
  unfold restoreCheckpoint
  simp only [h1, jsStr]
  simp [truthy, hfb, hm]

/-- Claim C8: `restoreCheckpoint` never propagates a failure.  Once a
checkpoint is resolved by exact id: a stored state that is null or
carries an `error` field yields `{success:false}` with the
invalid-state message and leaves the whole system (orchestrator
included) untouched, without calling `restoreState`; a stored tree
state makes the `restoreState` call, which always returns `.ok` — so
the `try/catch` that would convert a thrown error into a
`{success:false}` result is never exercised and every path returns an
ordinary result value. -/
theorem claim_C8 (score : String → String → ℚ) (sys : CheckpointSystem)
    (cid : String) (d : Option String) (cp : Checkpoint)
    (hfind : sys.checkpoints.find? (fun c => c.id = cid) = some cp)
    (hne : cid.isEmpty = false) :
    (stateInvalid cp.state = true →
      restoreCheckpoint score sys (some cid) d =
        (sys, ⟨false,
          "Checkpoint \"" ++ cp.name ++ "\" has invalid state."⟩)) ∧
    (∀ t, cp.state = .treev t →
      ∃ o2 m, restoreState sys.orchestrator (.treev t) = .ok (o2, m) ∧
        restoreCheckpoint score sys (some cid) d =
          ({ sys with orchestrator := o2 },
            ⟨true, "Checkpoint \"" ++ cp.name ++
              "\" restored successfully."⟩)) := by
  have hrc := restoreCheckpoint_id_found score sys cid d cp hne hfind
  constructor
  · intro hinv
    rw [hrc]
    unfold applyCheckpoint
    rw [if_pos hinv]
  · intro t ht
    refine ⟨restoreTask t none ⟨[], none⟩,
      "State restored successfully. Plan has " ++
        Nat.repr (restoreTask t none ⟨[], none⟩).tasks.length ++
        " task(s).", rfl, ?_⟩
    rw [hrc]
    unfold applyCheckpoint
    rw [ht]
    rfl

/-- The two branches of `claim_C8` exercised concretely: restoring the
error-state checkpoint `cp_1` of `w8sys` fails with the invalid-state
message and changes nothing, and restoring the tree-state checkpoint
`cp_2` routes through a successful `restoreState`. -/
theorem claim_C8_witness :
    (restoreCheckpoint w7score w8sys (some "cp_1") none =
      (w8sys, ⟨false, "Checkpoint \"one\" has invalid state."⟩)) ∧
    (∃ o2 m,
      restoreState w8sys.orchestrator
          (.treev (.node "1" "g" "pending" none none [])) = .ok (o2, m) ∧
      restoreCheckpoint w7score w8sys (some "cp_2") none =
        ({ w8sys with orchestrator := o2 },
          ⟨true, "Checkpoint \"two\" restored successfully."⟩)) :=
  ⟨(claim_C8 w7score w8sys "cp_1" none cpErr rfl rfl).1 rfl,
    (claim_C8 w7score w8sys "cp_2" none cpTree rfl rfl).2
      (.node "1" "g" "pending" none none []) rfl⟩

/-! ## `findBestMatches` and the description lookup -/

theorem findBestMatches_mem {α : Type} (score : String → String → ℚ)
    (q : String) (items : List α) (getText : α → String) (limit : Nat)
    (m : α × ℚ) (hm : m ∈ findBestMatches score q items getText limit) :
    m ∈ items.map (fun it => (it, score q (getText it))) := by
  unfold findBestMatches at hm
  exact List.mem_mergeSort.mp
    (List.mem_of_mem_take (List.mem_filter.mp hm).1)

theorem mergeSort_head_max {α : Type} (l : List (α × ℚ)) (h : α × ℚ)
    (t : List (α × ℚ))
    (hs : l.mergeSort (fun a b => b.2 ≤ a.2) = h :: t) :
    ∀ x ∈ l, x.2 ≤ h.2 := by
  intro x hx
  have hmem : x ∈ h :: t := by
    rw [← hs]; exact List.mem_mergeSort.mpr hx
  have hpw := @List.sorted_mergeSort (α × ℚ)
    (fun a b => decide (b.2 ≤ a.2))
    (fun a b c hab hbc => by
      simp only [decide_eq_true_eq] at *
      exact le_trans hbc hab)
    (fun a b => by
      rcases le_total a.2 b.2 with hle | hle <;> simp [hle])
    l
  rw [hs] at hpw
  rcases List.mem_cons.mp hmem with hEq | hxt
  · rw [hEq]
  · have := (List.pairwise_cons.mp hpw).1 x hxt
    simpa using this

/-- Claim C7: `restoreCheckpoint` with a `checkpointId` matching no
stored checkpoint fails with a message naming that id and changes
nothing (no fuzzy fallback); with only a `description` it scores every
checkpoint's `"<name> <description>"` text, and when no score exceeds
`0.3` it fails and changes nothing, while when some score does, the
single highest-scoring checkpoint is the one resolved. -/
theorem claim_C7 (score : String → String → ℚ) (sys : CheckpointSystem) :
    (∀ (cid : String) (d : Option String), cid.isEmpty = false →
      (∀ cp ∈ sys.checkpoints, cp.id ≠ cid) →
      restoreCheckpoint score sys (some cid) d =
        (sys, ⟨false, "Checkpoint " ++ cid ++ " not found."⟩)) ∧
    (∀ d : String, d.isEmpty = false →
      (∀ cp ∈ sys.checkpoints, score d (cpText cp) ≤ 3 / 10) →
      restoreCheckpoint score sys none (some d) =
        (sys, ⟨false, "No checkpoint found matching: " ++ d⟩)) ∧
    (∀ d : String, d.isEmpty = false →
      (∃ cp ∈ sys.checkpoints, (3 : ℚ) / 10 < score d (cpText cp)) →
      ∃ best ∈ sys.checkpoints,
        (∀ cp ∈ sys.checkpoints,
          score d (cpText cp) ≤ score d (cpText best)) ∧
        restoreCheckpoint score sys none (some d) =
          applyCheckpoint sys best) := by
  refine ⟨?_, ?_, ?_⟩
  · intro cid d hne hall
    refine restoreCheckpoint_id_missing score sys cid d hne ?_
    rw [List.find?_eq_none]
    intro cp hcp
    simpa using hall cp hcp
  · intro d hne hall
    cases hfb : findBestMatches score d sys.checkpoints cpText 1 with
    | nil => exact restoreCheckpoint_desc_nil score sys d hne hfb
    | cons m rest =>
      have hmem : m ∈ sys.checkpoints.map
          (fun it => (it, score d (cpText it))) :=
        findBestMatches_mem score d sys.checkpoints cpText 1 m
          (hfb ▸ List.mem_cons_self m rest)
      obtain ⟨cp, hcp, hEq⟩ := List.mem_map.mp hmem
      have hle : m.2 ≤ 3 / 10 := by
        rw [← hEq]; exact hall cp hcp
      exact restoreCheckpoint_desc_low score sys d m rest hne hfb
        (not_lt.mpr hle)
  · intro d hne hex
    obtain ⟨cp0, hcp0, hgt⟩ := hex
    cases hs : (sys.checkpoints.map
        (fun it => (it, score d (cpText it)))).mergeSort
        (fun a b => b.2 ≤ a.2) with
    | nil =>
      exfalso
      have : (cp0, score d (cpText cp0)) ∈
          (sys.checkpoints.map
            (fun it => (it, score d (cpText it)))).mergeSort
            (fun a b => b.2 ≤ a.2) :=
        List.mem_mergeSort.mpr (List.mem_map_of_mem _ hcp0)
      rw [hs] at this
      simp at this
    | cons hd tl =>
      have hmax := mergeSort_head_max _ hd tl hs
      have hdmem : hd ∈ sys.checkpoints.map
          (fun it => (it, score d (cpText it))) :=
        List.mem_mergeSort.mp (hs ▸ List.mem_cons_self hd tl)
      obtain ⟨best, hbest, hbEq⟩ := List.mem_map.mp hdmem
      have hdgt : (3 : ℚ) / 10 < hd.2 := by
        refine lt_of_lt_of_le hgt ?_
        have := hmax (cp0, score d (cpText cp0)) (List.mem_map_of_mem _ hcp0)
        simpa using this
      have hfb : findBestMatches score d sys.checkpoints cpText 1 = [hd] := by
        unfold findBestMatches
        rw [hs]
        have h110 : (1 : ℚ) / 10 < hd.2 := lt_trans (by norm_num) hdgt
        have h110' : (10 : ℚ)⁻¹ < hd.2 := by rw [← one_div]; exact h110
        simp [List.take, h110, h110']
      refine ⟨best, hbest, ?_, ?_⟩
      · intro cp hcp
        have := hmax (cp, score d (cpText cp)) (List.mem_map_of_mem _ hcp)
        have h2 : hd.2 = score d (cpText best) := by rw [← hbEq]
        rw [h2] at this
        simpa using this
      · have hres := restoreCheckpoint_desc_hit score sys d hd [] hne hfb hdgt
        have h1 : hd.1 = best := by rw [← hbEq]
        rw [hres, h1]

/-- The three branches of `claim_C7` exercised concretely: an unknown
exact id fails naming the id, a description scoring at most `0.3`
everywhere fails, and a description with a high-scoring checkpoint
resolves a maximal-scoring one. -/
theorem claim_C7_witness :
    (restoreCheckpoint w7score w8sys (some "zzz") none =
      (w8sys, ⟨false, "Checkpoint zzz not found."⟩)) ∧
    (restoreCheckpoint w7score w7sysLow none (some "q") =
      (w7sysLow, ⟨false, "No checkpoint found matching: q"⟩)) ∧
    (∃ best ∈ w8sys.checkpoints,
      (∀ cp ∈ w8sys.checkpoints,
        w7score "q" (cpText cp) ≤ w7score "q" (cpText best)) ∧
      restoreCheckpoint w7score w8sys none (some "q") =
        applyCheckpoint w8sys best) :=
  ⟨(claim_C7 w7score w8sys).1 "zzz" none rfl (by decide),
    (claim_C7 w7score w7sysLow).2.1 "q" rfl (by
      intro cp hcp
      have hcp' : cp = cpErr := by simpa [w7sysLow] using hcp
      subst hcp'
      have h0 : w7score "q" (cpText cpErr) = 0 := rfl
      rw [h0]; norm_num),
    (claim_C7 w7score w8sys).2.2 "q" rfl
      ⟨cpTree, List.mem_cons_of_mem _ (List.mem_cons_self _ _), by
        have h1 : w7score "q" (cpText cpTree) = 1 := rfl
        rw [h1]; norm_num⟩⟩

/-! ## String-join and `mapM` congruence lemmas -/

theorem strJoin_cons (s : String) (ss : List String) :
    String.join (s :: ss) = s ++ String.join ss := by
  apply String.ext
  simp [String.join_eq]

theorem strJoin_append (l1 l2 : List String) :
    String.join (l1 ++ l2) = String.join l1 ++ String.join l2 := by
  apply String.ext
  simp [String.join_eq]

theorem strJoin_flatten (ll : List (List String)) :
    String.join ll.flatten = String.join (ll.map String.join) := by
  induction ll with
  | nil => rfl
  | cons l ls ih =>
    rw [List.flatten_cons, strJoin_append, List.map_cons, strJoin_cons, ih]

theorem strJoin_flatten_map (f : String → String) (ll : List (List String)) :
    String.join ((ll.flatten).map f) =
      String.join (ll.map (fun ls => String.join (ls.map f))) := by
  rw [List.map_flatten, strJoin_flatten, List.map_map]
  rfl

theorem mapM_option_map {α β γ : Type} (l : List α) (f : α → Option β)
    (g : α → Option γ) (h : γ → β) (hfg : ∀ x ∈ l, f x = (g x).map h) :
    l.mapM f = (l.mapM g).map (List.map h) := by
  induction l with
  | nil => rfl
  | cons x xs ih =>
    rw [List.mapM_cons, List.mapM_cons, hfg x (by simp)]
    cases g x with
    | none => rfl
    | some c =>
      rw [ih (fun y hy => hfg y (by simp [hy]))]
      cases xs.mapM g <;> rfl

theorem statusIconSpec_eq (s : String) : statusIconSpec s = getStatusIcon s := by
  unfold statusIconSpec getStatusIcon
  split <;> simp_all

/-! ## `formatPlan` against the claimed and amended renderings -/

theorem printTask_eq_amended (m : TaskMap) :
    ∀ (fuel : Nat) (taskId : String) (depth : Nat),
      printTask m fuel taskId depth =
        (amendedLines m fuel taskId depth).map
          (fun ls => String.join (ls.map (fun l => l ++ "\n"))) := by
  intro fuel
  induction fuel with
  | zero => intro t d; rfl
  | succ n ih =>
    intro taskId depth
    unfold printTask amendedLines
    cases hm : mapGet m taskId with
    | none => rfl
    | some task =>
      simp only [Option.pure_def, Option.bind_eq_bind, Option.some_bind]
      rw [mapM_option_map task.subtasks
        (fun subId => printTask m n subId (depth + 1))
        (fun subId => amendedLines m n subId (depth + 1))
        (fun ls => String.join (ls.map (fun l => l ++ "\n")))
        (fun x _ => ih x (depth + 1))]
      cases hg : task.subtasks.mapM
          (fun subId => amendedLines m n subId (depth + 1)) with
      | none => rfl
      | some rss =>
        simp only [Option.map_some, Option.some_bind]
        by_cases hr : truthy task.result <;> by_cases hn : truthy task.notes <;>
          simp [hr, hn, List.map_append, strJoin_append, strJoin_cons,
            strJoin_flatten_map, strJoin_flatten, List.map_map,
            Function.comp_def, statusIconSpec_eq, String.append_assoc,
            show (")\n" : String) = ")" ++ "\n" from rfl,
            show ("    Result: " : String) = "    " ++ "Result: " from rfl,
            show ("    Notes: " : String) = "    " ++ "Notes: " from rfl]

/-- Counterexample to claim C4 as stated: on a store whose root task
carries a result, `formatPlan` emits a heading line
`Current Plan Status:` that the claim does not mention, and indents the
`Result:` line by four extra spaces (two indent levels), not the one
extra level the claim asserts. -/
theorem claim_C4_cex :
    formatPlan c4store 2 ≠ formatPlanClaimed c4store 2 ∧
    formatPlan c4store 2 =
      some "Current Plan Status:\n⭕ [1] g (pending)\n    Result: r\n" ∧
    formatPlanClaimed c4store 2 =
      some "⭕ [1] g (pending)\n  Result: r\n" :=
  ⟨by decide, by decide, by decide⟩

/-- Claim C4 (amended): when a plan is active, `formatPlan` renders a
heading line `Current Plan Status:` followed by the tree in depth-first
pre-order, each task line indented two spaces per depth level and
formatted as `<indent><icon> [<id>] <description> (<status>)` under the
fixed status-icon mapping, with `Result:`/`Notes:` lines (when present)
indented by the task's indent plus four spaces — two extra indent
levels, not one; with no active plan it returns exactly
`"No active plan."`. -/
theorem claim_C4 (o : TaskOrchestrator) (fuel : Nat) :
    formatPlan o fuel = formatPlanAmended o fuel := by
  cases hr : o.rootTaskId with
  | none => simp [formatPlan, formatPlanAmended, hr]
  | some rootId =>
    simp only [formatPlan, formatPlanAmended, hr]
    rw [printTask_eq_amended o.tasks fuel rootId 0]
    cases amendedLines o.tasks fuel rootId 0 <;> rfl

/-! ## `Nat.repr` is injective -/

theorem toDigitsCore_eq_tdc (fuel : Nat) :
    ∀ (n : Nat) (ds : List Char), n < fuel →
      Nat.toDigitsCore 10 fuel n ds = tdc n ++ ds := by
  induction fuel with
  | zero => intro n ds h; omega
  | succ f ih =>
    intro n ds h
    rw [Nat.toDigitsCore, tdc]
    by_cases h0 : n / 10 = 0
    · simp [h0]
    · simp only [h0, dif_neg, if_neg, not_false_iff]
      rw [ih (n / 10) _ (by
        have h1 : n / 10 < n := Nat.div_lt_self (by omega) (by decide)
        omega)]
      simp [List.append_assoc]

theorem repr_eq_tdc (n : Nat) : Nat.repr n = (tdc n).asString := by
  unfold Nat.repr Nat.toDigits
  rw [toDigitsCore_eq_tdc (n + 1) n [] (Nat.lt_succ_self n),
    List.append_nil]

theorem dval_digitChar : ∀ d, d < 10 → dval (Nat.digitChar d) = d := by
  decide

theorem tdc_foldl (n : Nat) : ∀ a : Nat,
    List.foldl (fun acc c => 10 * acc + dval c) a (tdc n) =
      a * 10 ^ (tdc n).length + n := by
  induction n using Nat.strong_induction_on with
  | _ n ih =>
    intro a
    rw [tdc]
    by_cases h0 : n / 10 = 0
    · simp only [dif_pos h0, List.foldl_cons, List.foldl_nil,
        List.length_cons, List.length_nil, zero_add, pow_one,
        dval_digitChar (n % 10) (by omega)]
      omega
    · simp only [dif_neg h0]
      rw [List.foldl_append,
        ih (n / 10) (Nat.div_lt_self (by omega) (by decide)) a]
      simp only [List.foldl_cons, List.foldl_nil, List.length_append,
        List.length_cons, List.length_nil, zero_add,
        dval_digitChar (n % 10) (by omega), pow_succ]
      have hdm : 10 * (n / 10) + n % 10 = n := Nat.div_add_mod n 10
      have hable : 10 * (a * 10 ^ (tdc (n / 10)).length) =
          a * (10 ^ (tdc (n / 10)).length * 10) := by ring
      omega

theorem natRepr_injective (m n : Nat) (h : Nat.repr m = Nat.repr n) :
    m = n := by
  rw [repr_eq_tdc, repr_eq_tdc] at h
  have hdata : tdc m = tdc n := congrArg String.data h
  have h1 := tdc_foldl m 0
  have h2 := tdc_foldl n 0
  rw [hdata] at h1
  simp only [Nat.zero_mul, Nat.zero_add] at h1 h2
  omega

/-! ## The id list `"1", …, "n"` -/

theorem idList_succ (n : Nat) :
    idList (n + 1) = idList n ++ [Nat.repr (n + 1)] := by
  simp [idList, List.range_succ]

theorem mem_idList {s : String} {n : Nat} (h : s ∈ idList n) :
    ∃ j, j < n ∧ s = Nat.repr (j + 1) := by
  simp only [idList, List.mem_map, List.mem_range] at h
  obtain ⟨j, hj, hEq⟩ := h
  exact ⟨j, hj, hEq.symm⟩

theorem repr_not_mem_idList (n : Nat) : Nat.repr (n + 1) ∉ idList n := by
  intro hmem
  obtain ⟨j, hj, hEq⟩ := mem_idList hmem
  have := natRepr_injective (n + 1) (j + 1) hEq
  omega

theorem idList_nodup (n : Nat) : (idList n).Nodup := by
  refine List.Nodup.map ?_ (List.nodup_range n)
  intro a b hab
  have := natRepr_injective (a + 1) (b + 1) hab
  omega

/-! ## Keys of `mapSet` and uniqueness of keyed entries -/

theorem any_key_iff (m : TaskMap) (k : String) :
    (m.any (fun p => p.1 = k)) = true ↔ k ∈ keys m := by
  rw [List.any_eq_true]
  constructor
  · rintro ⟨p, hp, hk⟩
    simp only [decide_eq_true_eq] at hk
    exact hk ▸ List.mem_map_of_mem _ hp
  · intro hk
    obtain ⟨p, hp, hEq⟩ := List.mem_map.mp hk
    exact ⟨p, hp, by simp [hEq]⟩

theorem mapSet_append_of_not_mem (m : TaskMap) (k : String) (v : Task)
    (h : k ∉ keys m) : mapSet m k v = m ++ [(k, v)] := by
  unfold mapSet
  rw [if_neg]
  intro ha
  exact h ((any_key_iff m k).mp ha)

theorem mapSet_map_of_mem (m : TaskMap) (k : String) (v : Task)
    (h : k ∈ keys m) :
    mapSet m k v = m.map (fun p => if p.1 = k then (k, v) else p) := by
  unfold mapSet
  rw [if_pos ((any_key_iff m k).mpr h)]

theorem keys_map_of_key_preserving (m : TaskMap)
    (f : String × Task → String × Task) (hf : ∀ p, (f p).1 = p.1) :
    keys (m.map f) = keys m := by
  unfold keys
  rw [List.map_map]
  exact List.map_congr_left (fun p _ => hf p)

theorem keys_append (m1 m2 : TaskMap) :
    keys (m1 ++ m2) = keys m1 ++ keys m2 := by
  simp [keys]

theorem mem_keys_of_mem {m : TaskMap} {p : String × Task} (hp : p ∈ m) :
    p.1 ∈ keys m := List.mem_map_of_mem _ hp

theorem mapGet_of_mem_nodup (m : TaskMap) (hnd : (keys m).Nodup)
    (q : String × Task) (hq : q ∈ m) : mapGet m q.1 = some q.2 := by
  induction m with
  | nil => cases hq
  | cons p ps ih =>
    rcases List.mem_cons.mp hq with hEq | htail
    · rw [hEq, mapGet_cons, if_pos rfl]
    · have hne : p.1 ≠ q.1 := by
        have h1 : q.1 ∈ keys ps := mem_keys_of_mem htail
        have h2 : p.1 ∉ keys ps := by
          have := hnd
          simp only [keys, List.map_cons, List.nodup_cons] at this
          exact this.1
        exact fun hc => h2 (hc ▸ h1)
      rw [mapGet_cons, if_neg hne]
      refine ih ?_ htail
      simp only [keys, List.map_cons, List.nodup_cons] at hnd
      exact hnd.2

/-! ## The `addTask` step preserves the C2 invariant -/

theorem addTask_step (done : List AddReq) (o : TaskOrchestrator) (r : AddReq)
    (hinv : C2Inv done o) (o' : TaskOrchestrator) (msg : String)
    (h : addTask o r.description r.parentId r.notes = .ok (o', msg)) :
    C2Inv (done ++ [r]) o' := by
  obtain ⟨hroot, hkeys, hkm, hrefs, hpos⟩ := hinv
  have hnd : (keys o.tasks).Nodup := hkeys ▸ idList_nodup _
  have hlen : o.tasks.length = done.length + 1 := by
    have hl := congrArg List.length hkeys
    simpa [keys, idList] using hl
  have hnew_notin : Nat.repr (o.tasks.length + 1) ∉ keys o.tasks := by
    rw [hkeys, hlen]
    exact repr_not_mem_idList _
  unfold addTask at h
  simp only [hroot] at h
  -- resolve the parent lookup
  set pkey := (if truthy r.parentId then jsStr r.parentId else "1") with hpkey
  have hkeysel : (if truthy r.parentId then mapGet o.tasks (jsStr r.parentId)
      else mapGet o.tasks "1") = mapGet o.tasks pkey := by
    rw [hpkey]
    by_cases htp : truthy r.parentId <;> simp [htp]
  rw [hkeysel] at h
  cases hpar : mapGet o.tasks pkey with
  | none => simp [hpar] at h
  | some parent =>
    simp only [hpar] at h
    have hparent_mem : (pkey, parent) ∈ o.tasks := mapGet_mem _ _ _ hpar
    have hparent_id : parent.id = pkey := hkm _ hparent_mem
    have hKEY_keys : pkey ∈ keys o.tasks := mem_keys_of_mem hparent_mem
    have hpid_ne : parent.id ≠ Nat.repr (o.tasks.length + 1) := by
      intro hc
      exact hnew_notin (hc ▸ (hparent_id ▸ hKEY_keys))
    rw [if_neg hpid_ne] at h
    simp only [Except.ok.injEq, Prod.mk.injEq] at h
    obtain ⟨ho', hmsg⟩ := h
    subst ho'
    -- name the pieces
    set nId := Nat.repr (o.tasks.length + 1) with hnId
    set newTask : Task :=
      { id := nId, description := r.description, status := "pending",
        parentId := some parent.id, notes := r.notes, subtasks := [] }
      with hnewTask
    set upd : Task :=
      { parent with subtasks := parent.subtasks ++ [nId] } with hupd
    have htasks1 : mapSet o.tasks nId newTask = o.tasks ++ [(nId, newTask)] :=
      mapSet_append_of_not_mem _ _ _ hnew_notin
    have hkeys1 : keys (o.tasks ++ [(nId, newTask)]) =
        keys o.tasks ++ [nId] := keys_append _ _
    have hpid_in1 : parent.id ∈ keys (o.tasks ++ [(nId, newTask)]) := by
      rw [hkeys1]
      exact List.mem_append_left _ (hparent_id ▸ hKEY_keys)
    have htasks2 : mapSet (o.tasks ++ [(nId, newTask)]) parent.id upd =
        (o.tasks ++ [(nId, newTask)]).map
          (fun p => if p.1 = parent.id then (parent.id, upd) else p) :=
      mapSet_map_of_mem _ _ _ hpid_in1
    set f : String × Task → String × Task :=
      fun p => if p.1 = parent.id then (parent.id, upd) else p with hf
    have hfkey : ∀ p, (f p).1 = p.1 := by
      intro p
      by_cases hp : p.1 = parent.id <;> simp [hf, hp]
    have hkeys2 : keys ((o.tasks ++ [(nId, newTask)]).map f) =
        keys o.tasks ++ [nId] := by
      rw [keys_map_of_key_preserving _ f hfkey, hkeys1]
    have hfpos : ∀ q : String × Task, q.1 = parent.id →
        f q = (parent.id, upd) := by
      intro q hq
      simp [hf, hq]
    have hfneg : ∀ q : String × Task, q.1 ≠ parent.id → f q = q := by
      intro q hq
      simp [hf, hq]
    have hnId_ne : nId ≠ parent.id := fun hc => hpid_ne hc.symm
    rw [htasks1, htasks2]
    refine ⟨rfl, ?_, ?_, ?_, ?_⟩
    · -- keys are exactly idList
      show keys ((o.tasks ++ [(nId, newTask)]).map f) =
        idList ((done ++ [r]).length + 1)
      rw [hkeys2, hkeys, hnId, hlen, ← idList_succ]
      congr 1
      simp
    · -- id = key for every entry
      intro p hp
      obtain ⟨q, hq, hfq⟩ := List.mem_map.mp hp
      by_cases hqk : q.1 = parent.id
      · rw [← hfq, hfpos q hqk]
      · rw [← hfq, hfneg q hqk]
        rcases List.mem_append.mp hq with hq1 | hq2
        · exact hkm q hq1
        · have hq2' : q = (nId, newTask) := by simpa using hq2
          rw [hq2']
    · -- references stay inside the key set
      intro p hp
      obtain ⟨q, hq, hfq⟩ := List.mem_map.mp hp
      have hsub : ∀ c, c ∈ keys o.tasks →
          c ∈ keys ((o.tasks ++ [(nId, newTask)]).map f) := by
        intro c hc
        rw [hkeys2]
        exact List.mem_append_left _ hc
      have hnew_in : nId ∈ keys ((o.tasks ++ [(nId, newTask)]).map f) := by
        rw [hkeys2]
        exact List.mem_append_right _ (by simp)
      by_cases hqk : q.1 = parent.id
      · have hq1 : q ∈ o.tasks := by
          rcases List.mem_append.mp hq with hq1 | hq2
          · exact hq1
          · exfalso
            have hq2' : q = (nId, newTask) := by simpa using hq2
            rw [hq2'] at hqk
            exact hnId_ne hqk
        have hqparent : q.2 = parent := by
          have h1 := mapGet_of_mem_nodup o.tasks hnd q hq1
          rw [hqk, hparent_id, hpar] at h1
          exact (Option.some_inj.mp h1).symm
        rw [← hfq, hfpos q hqk]
        constructor
        · intro c hc
          have hc' : c ∈ parent.subtasks ++ [nId] := hc
          rcases List.mem_append.mp hc' with hc1 | hc2
          · exact hsub c ((hrefs (pkey, parent) hparent_mem).1 c hc1)
          · have hcn : c = nId := by simpa using hc2
            exact hcn ▸ hnew_in
        · intro z hz
          have hz' : parent.parentId = some z := hz
          exact hsub z ((hrefs (pkey, parent) hparent_mem).2 z hz')
      · rw [← hfq, hfneg q hqk]
        rcases List.mem_append.mp hq with hq1 | hq2
        · exact ⟨fun c hc => hsub c ((hrefs q hq1).1 c hc),
            fun z hz => hsub z ((hrefs q hq1).2 z hz)⟩
        · have hq2' : q = (nId, newTask) := by simpa using hq2
          rw [hq2']
          constructor
          · intro c hc
            exact (List.not_mem_nil c hc).elim
          · intro z hz
            have hz' : z = parent.id := by
              have : newTask.parentId = some z := hz
              rw [hnewTask] at this
              simpa using this.symm
            exact hz' ▸ hsub parent.id (hparent_id ▸ hKEY_keys)
    · -- positions
      intro i hi
      have hmap : ((o.tasks ++ [(nId, newTask)]).map f)[i + 1]? =
          ((o.tasks ++ [(nId, newTask)])[i + 1]?).map f :=
        List.getElem?_map f _ _
      by_cases hik : i < done.length
      · -- an old position
        have hleft : (o.tasks ++ [(nId, newTask)])[i + 1]? =
            o.tasks[i + 1]? :=
          List.getElem?_append_left (by omega)
        obtain ⟨tk, htk, hdesc⟩ := hpos i hik
        have hget : (done ++ [r]).get ⟨i, hi⟩ = done.get ⟨i, hik⟩ := by
          rw [List.get_eq_getElem, List.get_eq_getElem,
            List.getElem_append_left hik]
        by_cases hfk : Nat.repr (i + 2) = parent.id
        · -- the old entry is the parent being extended
          have htk_mem : (Nat.repr (i + 2), tk) ∈ o.tasks :=
            List.getElem?_mem htk
          have htk_parent : tk = parent := by
            have h1 := mapGet_of_mem_nodup o.tasks hnd _ htk_mem
            simp only at h1
            rw [hfk, hparent_id, hpar] at h1
            exact (Option.some_inj.mp h1).symm
          refine ⟨upd, ?_, ?_⟩
          · rw [hmap, hleft, htk]
            have hredm : Option.map f (some (Nat.repr (i + 2), tk)) =
                some (f (Nat.repr (i + 2), tk)) := rfl
            rw [hredm, hfpos (Nat.repr (i + 2), tk) hfk, ← hfk]
          · have hud : upd.description = parent.description := rfl
            rw [hud, hget, ← hdesc, htk_parent]
        · refine ⟨tk, ?_, ?_⟩
          · rw [hmap, hleft, htk]
            have hredm : Option.map f (some (Nat.repr (i + 2), tk)) =
                some (f (Nat.repr (i + 2), tk)) := rfl
            rw [hredm, hfneg (Nat.repr (i + 2), tk) hfk]
          · rw [hget, ← hdesc]
      · -- the freshly appended entry
        have hik' : i = done.length := by
          have : i < (done ++ [r]).length := hi
          simp only [List.length_append, List.length_cons,
            List.length_nil] at this
          omega
        subst hik'
        have hconcat : (o.tasks ++ [(nId, newTask)])[done.length + 1]? =
            some (nId, newTask) := by
          rw [← hlen]
          exact List.getElem?_concat_length _ _
        refine ⟨newTask, ?_, ?_⟩
        · rw [hmap, hconcat]
          have hredm : Option.map f (some (nId, newTask)) =
              some (f (nId, newTask)) := rfl
          rw [hredm, hfneg (nId, newTask) hnId_ne, hnId, hlen]
        · have hnd' : newTask.description = r.description := rfl
          rw [hnd']
          have hgr : (done ++ [r]).get ⟨done.length, hi⟩ = r := by
            rw [List.get_eq_getElem]
            exact List.getElem_concat_length done r done.length rfl _
          rw [hgr]

/-! ## Running whole `addTask` sequences -/

theorem runAdds_inv (rest : List AddReq) : ∀ (done : List AddReq)
    (o o' : TaskOrchestrator), C2Inv done o → runAdds o rest = .ok o' →
    C2Inv (done ++ rest) o' := by
  induction rest with
  | nil =>
    intro done o o' hinv h
    simp only [runAdds, Except.ok.injEq] at h
    rw [List.append_nil]
    exact h ▸ hinv
  | cons r rs ih =>
    intro done o o' hinv h
    unfold runAdds at h
    cases ha : addTask o r.description r.parentId r.notes with
    | error e => simp [ha] at h
    | ok res =>
      obtain ⟨o1, m1⟩ := res
      simp only [ha] at h
      have h1 := addTask_step done o r hinv o1 m1 ha
      have h2 := ih (done ++ [r]) o1 o' h1 h
      rw [List.append_assoc] at h2
      simpa using h2

theorem createPlan_inv (goal : String) :
    C2Inv [] (createPlan emptyOrch goal).1 := by
  refine ⟨rfl, ?_, ?_, ?_, ?_⟩
  · have hk : keys (createPlan emptyOrch goal).1.tasks = ["1"] := rfl
    rw [hk]
    decide
  · intro p hp
    have hp' : p = ("1",
        { id := "1", description := goal, status := "pending",
          subtasks := [] }) := by
      simpa [createPlan, mapSet] using hp
    rw [hp']
  · intro p hp
    have hp' : p = ("1",
        { id := "1", description := goal, status := "pending",
          subtasks := [] }) := by
      simpa [createPlan, mapSet] using hp
    rw [hp']
    exact ⟨fun c hc => (List.not_mem_nil c hc).elim, fun q hq => by cases hq⟩
  · intro i hi
    cases hi

/-- Claim C2: after one `createPlan` and any sequence of successful
`addTask` calls, the keys are exactly `"1", …, repr (n+1)` in insertion
order (hence all ids unique), the `i`-th added task (0-based) sits at
position `i + 1` with id `repr (i + 2)` — the decimal string of the
task count plus one at the time of the call — and every id in any
`subtasks` list or `parentId` field refers to a task present in the
map. -/
theorem claim_C2 (goal : String) (reqs : List AddReq)
    (o' : TaskOrchestrator)
    (h : runAdds (createPlan emptyOrch goal).1 reqs = .ok o') :
    (keys o'.tasks).Nodup ∧
    keys o'.tasks = idList (reqs.length + 1) ∧
    (∀ i, (hi : i < reqs.length) → ∃ tk,
      o'.tasks[i + 1]? = some (Nat.repr (i + 2), tk) ∧
      tk.id = Nat.repr (i + 2) ∧
      tk.description = (reqs.get ⟨i, hi⟩).description) ∧
    (∀ p ∈ o'.tasks, (∀ c ∈ p.2.subtasks, c ∈ keys o'.tasks) ∧
      (∀ q, p.2.parentId = some q → q ∈ keys o'.tasks)) := by
  have hinv := runAdds_inv reqs [] _ o' (createPlan_inv goal) h
  rw [List.nil_append] at hinv
  obtain ⟨hroot, hkeys, hkm, hrefs, hpos⟩ := hinv
  refine ⟨hkeys ▸ idList_nodup _, hkeys, ?_, hrefs⟩
  intro i hi
  obtain ⟨tk, htk, hdesc⟩ := hpos i hi
  exact ⟨tk, htk, hkm _ (List.getElem?_mem htk), hdesc⟩

/-- The guarantees of `claim_C2` at the concrete run
`createPlan "g"`, `addTask "a"`, `addTask "b" (parent "2")`. -/
theorem claim_C2_witness :
    (keys c2result.tasks).Nodup ∧
    keys c2result.tasks = idList (c2reqs.length + 1) ∧
    (∀ i, (hi : i < c2reqs.length) → ∃ tk,
      c2result.tasks[i + 1]? = some (Nat.repr (i + 2), tk) ∧
      tk.id = Nat.repr (i + 2) ∧
      tk.description = (c2reqs.get ⟨i, hi⟩).description) ∧
    (∀ p ∈ c2result.tasks, (∀ c ∈ p.2.subtasks, c ∈ keys c2result.tasks) ∧
      (∀ q, p.2.parentId = some q → q ∈ keys c2result.tasks)) :=
  claim_C2 "g" c2reqs c2result rfl

/-! ## Size and occurrence facts -/

theorem children_sizeOf_lt (t c : TaskNode) (hc : c ∈ t.children) :
    sizeOf c < sizeOf t := by
  cases t with
  | node i d st nt rs subs =>
    have h3 : c ∈ subs := hc
    have h1 := List.sizeOf_lt_of_mem h3
    have h2 := TaskNode.node.sizeOf_spec i d st nt rs subs
    omega

theorem occurs_sizeOf_le (u t : TaskNode) (h : Occurs u t) :
    sizeOf u ≤ sizeOf t := by
  induction h with
  | refl => exact le_refl _
  | child hc _ ih => exact le_of_lt (lt_of_le_of_lt ih
      (children_sizeOf_lt _ _ hc))

theorem occurs_in_child_ne (t u c : TaskNode) (hcoh : Coherent t)
    (hc : c ∈ t.children) (hu : Occurs u c) : u.nid ≠ t.nid := by
  intro hid
  have huT : Occurs u t := .child hc hu
  have hEq : u = t := hcoh u t huT (.refl t) hid
  have h1 : sizeOf u ≤ sizeOf c := occurs_sizeOf_le u c hu
  have h2 : sizeOf c < sizeOf t := children_sizeOf_lt t c hc
  rw [hEq] at h1
  omega

theorem occurs_trans (u s t : TaskNode) (h1 : Occurs u s)
    (h2 : Occurs s t) : Occurs u t := by
  induction h2 with
  | refl => exact h1
  | child hc _ ih => exact .child hc ih

theorem coherent_of_occurs (t s : TaskNode) (hcoh : Coherent t)
    (hs : Occurs s t) : Coherent s := by
  intro u1 u2 h1 h2 hid
  exact hcoh u1 u2 (occurs_trans u1 s t h1 hs)
    (occurs_trans u2 s t h2 hs) hid

theorem occursL_children (u : TaskNode) (i d st nt rs : _)
    (subs : List TaskNode)
    (h : OccursL u subs) : Occurs u (TaskNode.node i d st nt rs subs) := by
  obtain ⟨c, hc, hu⟩ := h
  exact .child (by simpa [TaskNode.children] using hc) hu

theorem coherentL_of_coherent (i d st nt rs : _) (subs : List TaskNode)
    (hcoh : Coherent (TaskNode.node i d st nt rs subs)) :
    CoherentL subs := by
  intro u1 u2 h1 h2 hid
  exact hcoh u1 u2 (occursL_children u1 i d st nt rs subs h1)
    (occursL_children u2 i d st nt rs subs h2) hid

theorem avoid_of_coherent (i d st nt rs : _) (subs : List TaskNode)
    (hcoh : Coherent (TaskNode.node i d st nt rs subs)) :
    ∀ u, OccursL u subs → u.nid ≠ i := by
  intro u hu
  exact occurs_in_child_ne (TaskNode.node i d st nt rs subs) u _ hcoh
    (hu.choose_spec.1) (hu.choose_spec.2)

/-! ## `Option`-monad `mapM` facts -/

theorem mapM_mono {α β : Type} (l : List α) (g g' : α → Option β)
    (hg : ∀ x ∈ l, ∀ y, g x = some y → g' x = some y) :
    ∀ ys, l.mapM g = some ys → l.mapM g' = some ys := by
  induction l with
  | nil => intro ys h; simpa using h
  | cons x xs ih =>
    intro ys h
    rw [List.mapM_cons] at h ⊢
    simp only [Option.pure_def, Option.bind_eq_bind] at h ⊢
    cases hx : g x with
    | none => rw [hx] at h; cases h
    | some y =>
      rw [hx] at h
      rw [hg x (by simp) y hx]
      simp only [Option.some_bind] at h ⊢
      cases hxs : xs.mapM g with
      | none => rw [hxs] at h; cases h
      | some ys' =>
        rw [hxs] at h
        rw [ih (fun z hz => hg z (by simp [hz])) ys' hxs]
        exact h

theorem mapM_mem {α β : Type} (l : List α) (g : α → Option β)
    (ys : List β) (h : l.mapM g = some ys) :
    ∀ y ∈ ys, ∃ x ∈ l, g x = some y := by
  induction l generalizing ys with
  | nil =>
    simp only [List.mapM_nil, Option.pure_def, Option.some_inj] at h
    rw [← h]
    intro y hy
    cases hy
  | cons x xs ih =>
    rw [List.mapM_cons] at h
    simp only [Option.pure_def, Option.bind_eq_bind] at h
    cases hx : g x with
    | none => rw [hx] at h; cases h
    | some y0 =>
      rw [hx] at h
      simp only [Option.some_bind] at h
      cases hxs : xs.mapM g with
      | none => rw [hxs] at h; cases h
      | some ys' =>
        rw [hxs] at h
        simp only [Option.some_bind, Option.some_inj] at h
        rw [← h]
        intro y hy
        rcases List.mem_cons.mp hy with hEq | htail
        · exact ⟨x, by simp, hEq ▸ hx⟩
        · obtain ⟨x', hx', hgx'⟩ := ih ys' hxs y htail
          exact ⟨x', by simp [hx'], hgx'⟩

theorem mapM_map_self (l : List TaskNode)
    (g : String → Option TaskNode)
    (hg : ∀ x ∈ l, g x.nid = some x) :
    (l.map TaskNode.nid).mapM g = some l := by
  induction l with
  | nil => rfl
  | cons x xs ih =>
    rw [List.map_cons, List.mapM_cons]
    simp only [Option.pure_def, Option.bind_eq_bind]
    rw [hg x (by simp), Option.some_bind,
      ih (fun z hz => hg z (by simp [hz])), Option.some_bind]

/-! ## What `getPlanState` exports is coherent -/

theorem buildTree_mono (m : TaskMap) :
    ∀ (f f' : Nat) (tid : String) (n : TaskNode), f ≤ f' →
      buildTree m f tid = some n → buildTree m f' tid = some n := by
  intro f
  induction f with
  | zero => intro f' tid n _ h; cases h
  | succ g ih =>
    intro f' tid n hle h
    cases f' with
    | zero => omega
    | succ g' =>
      unfold buildTree at h ⊢
      simp only [Option.pure_def, Option.bind_eq_bind, Option.bind_eq_some,
        Option.some_inj] at h ⊢
      obtain ⟨task, hm, cs, hc, hn⟩ := h
      exact ⟨task, hm, cs,
        mapM_mono _ _ _ (fun x _ y hy => ih g' x y (by omega) hy) cs hc, hn⟩

theorem buildTree_id (m : TaskMap) (hkm : ∀ p ∈ m, p.2.id = p.1)
    (f : Nat) (tid : String) (n : TaskNode)
    (h : buildTree m f tid = some n) : n.nid = tid := by
  cases f with
  | zero => cases h
  | succ g =>
    unfold buildTree at h
    simp only [Option.pure_def, Option.bind_eq_bind, Option.bind_eq_some,
      Option.some_inj] at h
    obtain ⟨task, hm, cs, hc, hn⟩ := h
    rw [← hn]
    exact hkm (tid, task) (mapGet_mem m tid task hm)

theorem buildTree_occurs (m : TaskMap) (hkm : ∀ p ∈ m, p.2.id = p.1) :
    ∀ (f : Nat) (tid : String) (t : TaskNode),
      buildTree m f tid = some t →
      ∀ u, Occurs u t → ∃ g, g ≤ f ∧ buildTree m g u.nid = some u := by
  intro f
  induction f with
  | zero => intro tid t h; cases h
  | succ g ih =>
    intro tid t h u hu
    have hbt := h
    unfold buildTree at h
    simp only [Option.pure_def, Option.bind_eq_bind, Option.bind_eq_some,
      Option.some_inj] at h
    obtain ⟨task, hm, cs, hc, hn⟩ := h
    subst hn
    cases hu with
    | refl =>
      refine ⟨g + 1, le_refl _, ?_⟩
      rw [buildTree_id m hkm (g + 1) tid _ hbt]
      exact hbt
    | child hcc hoc =>
      rename_i c
      have hcs : c ∈ cs := by simpa [TaskNode.children] using hcc
      obtain ⟨sid, _, hsid⟩ := mapM_mem _ _ _ hc _ hcs
      obtain ⟨g', hg', hb'⟩ := ih sid _ hsid u hoc
      exact ⟨g', by omega, hb'⟩

theorem coherent_of_buildTree (m : TaskMap)
    (hkm : ∀ p ∈ m, p.2.id = p.1) (f : Nat) (tid : String) (t : TaskNode)
    (h : buildTree m f tid = some t) : Coherent t := by
  intro u1 u2 h1 h2 hid
  obtain ⟨g1, _, hb1⟩ := buildTree_occurs m hkm f tid t h u1 h1
  obtain ⟨g2, _, hb2⟩ := buildTree_occurs m hkm f tid t h u2 h2
  have hb1' := buildTree_mono m g1 (max g1 g2) u1.nid u1
    (le_max_left _ _) hb1
  have hb2' := buildTree_mono m g2 (max g1 g2) u2.nid u2
    (le_max_right _ _) hb2
  rw [← hid] at hb2'
  rw [hb1'] at hb2'
  exact Option.some_inj.mp hb2'

/-! ## What replaying a coherent snapshot builds

The two statements below follow the mutual recursion of
`restoreTask`/`restoreTasks`, by strong induction on size: replaying a
coherent subtree under an existing parent entry pushes the subtree root
onto the parent's `subtasks`, installs the canonical entry `mkEntry u`
for every node `u` of the subtree, and touches nothing else. -/

theorem restore_spec (n : Nat) :
    (∀ (s : TaskNode) (pid : String) (o : TaskOrchestrator) (pe : Task),
      sizeOf s ≤ n → Coherent s →
      (∀ u, Occurs u s → u.nid ≠ pid) →
      mapGet o.tasks pid = some pe →
      (restoreTask s (some pid) o).rootTaskId = o.rootTaskId ∧
      mapGet (restoreTask s (some pid) o).tasks pid =
        some { pe with subtasks := pe.subtasks ++ [s.nid] } ∧
      (∀ u, Occurs u s → ∃ pp,
        mapGet (restoreTask s (some pid) o).tasks u.nid =
          some (mkEntry u pp)) ∧
      (∀ x, (∀ u, Occurs u s → u.nid ≠ x) → x ≠ pid →
        mapGet (restoreTask s (some pid) o).tasks x = mapGet o.tasks x)) ∧
    (∀ (cs : List TaskNode) (pn : String) (o : TaskOrchestrator)
      (pe : Task),
      sizeOf cs ≤ n → CoherentL cs →
      (∀ u, OccursL u cs → u.nid ≠ pn) →
      mapGet o.tasks pn = some pe →
      (restoreTasks cs pn o).rootTaskId = o.rootTaskId ∧
      mapGet (restoreTasks cs pn o).tasks pn =
        some { pe with subtasks := pe.subtasks ++ cs.map TaskNode.nid } ∧
      (∀ u, OccursL u cs → ∃ pp,
        mapGet (restoreTasks cs pn o).tasks u.nid = some (mkEntry u pp)) ∧
      (∀ x, (∀ u, OccursL u cs → u.nid ≠ x) → x ≠ pn →
        mapGet (restoreTasks cs pn o).tasks x = mapGet o.tasks x)) := by
  induction n using Nat.strong_induction_on with
  | _ n ih =>
    constructor
    · -- a single subtree under an existing parent
      intro s pid o pe hsz hcoh havoid hpe
      cases s with
      | node i d st nt rs subs =>
        have hne : i ≠ pid := by
          have h0 := havoid (TaskNode.node i d st nt rs subs) (.refl _)
          simpa [TaskNode.nid] using h0
        have hd1 : mapGet (mapSet o.tasks i
            { id := i, description := d, status := st,
              parentId := some pid, notes := nt, result := rs,
              subtasks := [] }) pid = some pe := by
          rw [mapGet_mapSet_ne o.tasks i _ pid (fun hh => hne hh.symm)]
          exact hpe
        have hrw : restoreTask (TaskNode.node i d st nt rs subs)
            (some pid) o =
            restoreTasks subs i
              ⟨mapSet (mapSet o.tasks i
                { id := i, description := d, status := st,
                  parentId := some pid, notes := nt, result := rs,
                  subtasks := [] }) pid
                { pe with subtasks := pe.subtasks ++ [i] },
                o.rootTaskId⟩ := by
          unfold restoreTask
          simp [hd1]
        have hszsubs : sizeOf subs < n := by
          have hs := TaskNode.node.sizeOf_spec i d st nt rs subs
          omega
        have hgi : mapGet (mapSet (mapSet o.tasks i
            { id := i, description := d, status := st,
              parentId := some pid, notes := nt, result := rs,
              subtasks := [] }) pid
            { pe with subtasks := pe.subtasks ++ [i] }) i =
            some
              { id := i, description := d, status := st,
                parentId := some pid, notes := nt, result := rs,
                subtasks := [] } := by
          rw [mapGet_mapSet_ne _ pid _ i hne, mapGet_mapSet_self]
        obtain ⟨a2, b2, c2, d2⟩ := (ih (sizeOf subs) hszsubs).2
          subs i
          ⟨mapSet (mapSet o.tasks i
            { id := i, description := d, status := st,
              parentId := some pid, notes := nt, result := rs,
              subtasks := [] }) pid
            { pe with subtasks := pe.subtasks ++ [i] },
            o.rootTaskId⟩
          { id := i, description := d, status := st,
            parentId := some pid, notes := nt, result := rs,
            subtasks := [] }
          (le_refl _)
          (coherentL_of_coherent i d st nt rs subs hcoh)
          (avoid_of_coherent i d st nt rs subs hcoh)
          hgi
        rw [hrw]
        refine ⟨a2, ?_, ?_, ?_⟩
        · -- the parent entry got exactly one push
          have hx := d2 pid
            (fun u hu => havoid u (occursL_children u i d st nt rs subs hu))
            (fun hh => hne hh.symm)
          rw [hx]
          rw [mapGet_mapSet_self]
          rfl
        · -- every node of the subtree has its canonical entry
          intro u hu
          cases hu with
          | refl =>
            refine ⟨some pid, ?_⟩
            simp only [TaskNode.nid]
            rw [b2]
            rfl
          | child hcc hoc =>
            rename_i c
            exact c2 u ⟨c, by simpa [TaskNode.children] using hcc, hoc⟩
        · -- frame
          intro x hx hxpid
          have hx2 := d2 x
            (fun u hu => hx u (occursL_children u i d st nt rs subs hu))
            (fun hh => hx (TaskNode.node i d st nt rs subs) (.refl _)
              (by simpa [TaskNode.nid] using hh.symm))
          rw [hx2]
          have hxi : x ≠ i := fun hh =>
            hx (TaskNode.node i d st nt rs subs) (.refl _)
              (by simpa [TaskNode.nid] using hh.symm)
          rw [mapGet_mapSet_ne _ pid _ x hxpid,
            mapGet_mapSet_ne _ i _ x hxi]
    · -- a forest of siblings
      intro cs pn o pe hsz hcoh havoid hpe
      cases cs with
      | nil =>
        refine ⟨rfl, ?_, ?_, fun x _ _ => rfl⟩
        · simp only [restoreTasks, List.map_nil, List.append_nil]
          simpa using hpe
        · intro u hu
          obtain ⟨c, hc, _⟩ := hu
          cases hc
      | cons c rest =>
        have hszc : sizeOf c < n ∧ sizeOf rest < n := by
          have hs := List.cons.sizeOf_spec c rest
          omega
        have hcohc : Coherent c := by
          intro u1 u2 h1 h2 hid
          exact hcoh u1 u2 ⟨c, by simp, h1⟩ ⟨c, by simp, h2⟩ hid
        have havc : ∀ u, Occurs u c → u.nid ≠ pn := by
          intro u hu
          exact havoid u ⟨c, by simp, hu⟩
        obtain ⟨a1, b1, c1, d1⟩ := (ih (sizeOf c) hszc.1).1
          c pn o pe (le_refl _) hcohc havc hpe
        have hcohr : CoherentL rest := by
          intro u1 u2 h1 h2 hid
          obtain ⟨c1', hc1, ho1⟩ := h1
          obtain ⟨c2', hc2, ho2⟩ := h2
          exact hcoh u1 u2 ⟨c1', by simp [hc1], ho1⟩
            ⟨c2', by simp [hc2], ho2⟩ hid
        have havr : ∀ u, OccursL u rest → u.nid ≠ pn := by
          intro u hu
          obtain ⟨c', hc', ho'⟩ := hu
          exact havoid u ⟨c', by simp [hc'], ho'⟩
        obtain ⟨a2, b2, c2, d2⟩ := (ih (sizeOf rest) hszc.2).2
          rest pn (restoreTask c (some pn) o)
          { pe with subtasks := pe.subtasks ++ [c.nid] }
          (le_refl _) hcohr havr b1
        have hstep : restoreTasks (c :: rest) pn o =
            restoreTasks rest pn (restoreTask c (some pn) o) := rfl
        rw [hstep]
        refine ⟨a2.trans a1, ?_, ?_, ?_⟩
        · rw [b2]
          congr 1
          simp [List.append_assoc]
        · intro u hu
          obtain ⟨c0, hc0, ho0⟩ := hu
          rcases List.mem_cons.mp hc0 with hEq | htail
          · -- u occurs in the head tree
            subst hEq
            by_cases hocc : ∃ u', OccursL u' rest ∧ u'.nid = u.nid
            · obtain ⟨u', hu', hid'⟩ := hocc
              obtain ⟨pp, hpp⟩ := c2 u' hu'
              have hEqu : u' = u := by
                obtain ⟨c', hc', ho'⟩ := hu'
                exact hcoh u' u ⟨c', by simp [hc'], ho'⟩
                  ⟨c0, by simp, ho0⟩ hid'
              rw [hEqu] at hpp
              rw [hEqu] at hid'
              exact ⟨pp, hpp⟩
            · push_neg at hocc
              obtain ⟨pp, hpp⟩ := c1 u ho0
              refine ⟨pp, ?_⟩
              rw [d2 u.nid (fun u'' hu'' => hocc u'' hu'')
                (havoid u ⟨c0, by simp, ho0⟩)]
              exact hpp
          · exact c2 u ⟨c0, htail, ho0⟩
        · intro x hx hxpn
          rw [d2 x (fun u hu => hx u (by
              obtain ⟨c', hc', ho'⟩ := hu
              exact ⟨c', by simp [hc'], ho'⟩)) hxpn]
          exact d1 x (fun u hu => hx u ⟨c, by simp, hu⟩) hxpn

theorem restoreState_root (t : TaskNode) (hcoh : Coherent t) :
    (restoreTask t none emptyOrch).rootTaskId = some t.nid ∧
    (∀ u, Occurs u t → ∃ pp,
      mapGet (restoreTask t none emptyOrch).tasks u.nid =
        some (mkEntry u pp)) := by
  cases t with
  | node i d st nt rs subs =>
    have hrw : restoreTask (TaskNode.node i d st nt rs subs) none
        emptyOrch =
        restoreTasks subs i
          ⟨[(i,
            { id := i, description := d, status := st, parentId := none,
              notes := nt, result := rs, subtasks := [] })], some i⟩ := rfl
    have hgi : mapGet [(i,
        ({ id := i, description := d, status := st, parentId := none,
           notes := nt, result := rs, subtasks := [] } : Task))] i =
        some
          { id := i, description := d, status := st, parentId := none,
            notes := nt, result := rs, subtasks := [] } := by
      rw [mapGet_cons]
      simp
    obtain ⟨a2, b2, c2, d2⟩ := (restore_spec (sizeOf subs)).2 subs i
      ⟨[(i,
        { id := i, description := d, status := st, parentId := none,
          notes := nt, result := rs, subtasks := [] })], some i⟩
      { id := i, description := d, status := st, parentId := none,
        notes := nt, result := rs, subtasks := [] }
      (le_refl _)
      (coherentL_of_coherent i d st nt rs subs hcoh)
      (avoid_of_coherent i d st nt rs subs hcoh)
      hgi
    constructor
    · rw [hrw, a2]
      rfl
    · intro u hu
      cases hu with
      | refl =>
        refine ⟨none, ?_⟩
        simp only [TaskNode.nid]
        rw [hrw, b2]
        rfl
      | child hcc hoc =>
        rename_i c
        rw [hrw]
        exact c2 u ⟨c, by simpa [TaskNode.children] using hcc, hoc⟩

/-! ## Re-exporting the rebuilt map reproduces the snapshot -/

theorem depthL_le (c : TaskNode) (l : List TaskNode) (hc : c ∈ l) :
    depthT c ≤ depthL l := by
  induction l with
  | nil => cases hc
  | cons x xs ih =>
    rcases List.mem_cons.mp hc with hEq | htail
    · rw [hEq, depthL]
      exact le_max_left _ _
    · exact le_trans (ih htail) (by rw [depthL]; exact le_max_right _ _)

theorem buildTree_of_entries (m : TaskMap) :
    ∀ (f : Nat) (t : TaskNode), depthT t ≤ f →
      (∀ u, Occurs u t → ∃ pp, mapGet m u.nid = some (mkEntry u pp)) →
      buildTree m f t.nid = some t := by
  intro f
  induction f with
  | zero =>
    intro t ht _
    cases t with
    | node i d st nt rs subs => simp [depthT] at ht
  | succ g ih =>
    intro t ht henv
    cases t with
    | node i d st nt rs subs =>
      obtain ⟨pp, hpp⟩ := henv _ (.refl _)
      simp only [TaskNode.nid] at hpp
      unfold buildTree
      simp only [Option.pure_def, Option.bind_eq_bind, Option.bind_eq_some,
        Option.some_inj, TaskNode.nid]
      refine ⟨mkEntry (TaskNode.node i d st nt rs subs) pp, hpp, subs,
        ?_, ?_⟩
      · show (subs.map TaskNode.nid).mapM (buildTree m g) = some subs
        refine mapM_map_self subs _ (fun c hc => ?_)
        refine ih c ?_ (fun u hu => henv u
          (.child (by simpa [TaskNode.children] using hc) hu))
        have h1 : depthT c ≤ depthL subs := depthL_le c subs hc
        have h2 : depthT (TaskNode.node i d st nt rs subs) =
            depthL subs + 1 := rfl
        omega
      · rfl

/-- Claim C1: for every well-keyed store with an active plan whose
export succeeds, feeding the exported snapshot to `restoreState` on a
fresh store succeeds, and the restored store's own `getPlanState`
reproduces the snapshot exactly (same ids, descriptions, statuses,
notes, results and child order at every node).  Well-keyed (every map
entry's `id` field equals its key) is an invariant of every
`TaskOrchestrator` operation. -/
theorem claim_C1 (o : TaskOrchestrator) (fuel : Nat) (t : TaskNode)
    (hkm : ∀ p ∈ o.tasks, p.2.id = p.1)
    (hexp : getPlanState o fuel = some (.treev t)) :
    ∃ o' msg, restoreState emptyOrch (.treev t) = .ok (o', msg) ∧
      getPlanState o' (depthT t) = some (.treev t) := by
  have hcoh : Coherent t := by
    unfold getPlanState at hexp
    cases hro : o.rootTaskId with
    | none =>
      simp only [hro] at hexp
      exact PlanStateVal.noConfusion (Option.some_inj.mp hexp)
    | some rootId =>
      simp only [hro] at hexp
      cases hb : buildTree o.tasks fuel rootId with
      | none => rw [hb] at hexp; exact Option.noConfusion hexp
      | some t0 =>
        rw [hb] at hexp
        have hexp' : PlanStateVal.treev t0 = PlanStateVal.treev t :=
          Option.some_inj.mp hexp
        injection hexp' with ht0
        rw [ht0] at hb
        exact coherent_of_buildTree o.tasks hkm fuel rootId t hb
  obtain ⟨hroot, hentries⟩ := restoreState_root t hcoh
  refine ⟨restoreTask t none emptyOrch, _, rfl, ?_⟩
  unfold getPlanState
  simp only [hroot]
  rw [buildTree_of_entries _ (depthT t) t (le_refl _) hentries]
  rfl

/-- The round trip of `claim_C1` at a concrete two-task store. -/
theorem claim_C1_witness :
    ∃ o' msg, restoreState emptyOrch (.treev c1snap) = .ok (o', msg) ∧
      getPlanState o' (depthT c1snap) = some (.treev c1snap) :=
  claim_C1 c1store 2 c1snap (by decide) rfl

end Orch
